import Mathlib

/-!
# Verification of the OpenAPI router core

This file is a shallow embedding, in Lean 4, of `src/router.ts` — the
`OpenAPIRouter` class of the `openapi-backend` repository — together with
theorems settling the specification claims about it.

Embedding conventions:
* JavaScript strings are modelled as Lean `String`s manipulated through their
  underlying `List Char`; all string operations used by the source (trim,
  split, replace, prefix tests, lower-casing) are defined here explicitly so
  that their semantics is visible and provable.
* JS objects used as string-keyed maps (the parsed query, headers, the paths
  object of the document) are modelled as association lists in insertion
  order, which is how JS enumerates object keys.  JS object keys are unique;
  where a theorem needs this fact it appears as a `Nodup` hypothesis.
* A JS value that may be `undefined` is modelled with `Option` (or with the
  dedicated `QVal.undef` constructor where an `undefined` is stored inside a
  query object by an assignment).
* `throw` in strict mode is modelled by the `MatchOutcome.err` constructor
  carrying the thrown message, `undefined` results by `MatchOutcome.absent`.
* Regular-expression based operations of the source are modelled by
  executable functions over character lists.  Literal characters of a path
  template are matched literally (the source does not escape them, so a
  template containing regex metacharacters outside `\x7b...\x7d` placeholders
  would behave differently; such templates are outside this model).
* `qs.parse` is modelled for flat query strings (`k=v` pairs joined by `&`,
  percent-decoding, `+` as space, repeated keys collecting into arrays, and
  the `comma: true` option); the bracket/nesting syntax of `qs` is not
  modelled.
-/

/-! ## Character-list string helpers (JS string semantics) -/

/-- Prefix test on character lists (JS `String.prototype.startsWith`). -/
def isPre : List Char → List Char → Bool
  | [], _ => true
  | _ :: _, [] => false
  | a :: as, b :: bs => a == b && isPre as bs

/-- JS `str.split(sep)` for a one-character separator: split at every
occurrence, keeping empty pieces. -/
def splitOnChar (sep : Char) : List Char → List (List Char)
  | [] => [[]]
  | c :: cs =>
    let r := splitOnChar sep cs
    if c == sep then [] :: r
    else match r with
      | [] => [[c]]
      | h :: t => (c :: h) :: t

/-- JS whitespace test for `String.prototype.trim` (ASCII fragment). -/
def isJsSpace (c : Char) : Bool :=
  c == ' ' || c == '\t' || c == '\n' || c == '\r' || c == '\x0b' || c == '\x0c'

/-- JS `str.trim()`. -/
def jsTrim (cs : List Char) : List Char :=
  ((cs.dropWhile isJsSpace).reverse.dropWhile isJsSpace).reverse

/-- ASCII lower-casing, JS `String.prototype.toLowerCase` on the method names
and header names that occur here. -/
def jsToLower (cs : List Char) : List Char := cs.map Char.toLower

/-- Global replacement of a fixed three-character substring by one character,
left to right and non-overlapping — JS `str.replace(/xyz/g, r)` for the
`"%20"` and `"%7C"` rewrites of the source. -/
def replaceSub3 (p1 p2 p3 r : Char) : List Char → List Char
  | x :: y :: z :: rest =>
    if x == p1 && y == p2 && z == p3 then r :: replaceSub3 p1 p2 p3 r rest
    else x :: replaceSub3 p1 p2 p3 r (y :: z :: rest)
  | cs => cs

/-- Hexadecimal digit value (via the character code). -/
def hexVal (c : Char) : Option Nat :=
  let n := c.toNat
  if 48 ≤ n && n ≤ 57 then some (n - 48)
  else if 97 ≤ n && n ≤ 102 then some (n - 87)
  else if 65 ≤ n && n ≤ 70 then some (n - 55)
  else none

/-- Percent-decoding as done by the default `qs` decoder: `%XX` escapes are
decoded and `+` becomes a space; malformed escapes are kept verbatim. -/
def pctDecode : List Char → List Char
  | '%' :: a :: b :: rest =>
    match hexVal a, hexVal b with
    | some ha, some hb => Char.ofNat (16 * ha + hb) :: pctDecode rest
    | _, _ => '%' :: pctDecode (a :: b :: rest)
  | '+' :: rest => ' ' :: pctDecode rest
  | c :: rest => c :: pctDecode rest
  | [] => []

/-! ## Path templates: tokenization and matching

The source turns an OpenAPI path template into a regex by
`path.replace(/\x7b.*?\x7d/g, '[^/]+')` and matches the normalized request
path against it, anchored at both ends.  We tokenize the template into
literal characters and placeholder wildcards (a placeholder runs from a `{`
to the first following `}`; a `{` never followed by `}` stays literal), and
implement the anchored match; each wildcard matches one or more non-slash
characters. -/

/-- A compiled token of a path template. -/
inductive Tok where
  | lit (c : Char)
  | wild
deriving DecidableEq, Repr

/-- One step of the template tokenizer: the state is the reversed list of
tokens produced so far, plus the reversed buffer of characters consumed since
an unclosed `{` (or `none` when outside a placeholder). -/
def tokStep : List Tok × Option (List Char) → Char → List Tok × Option (List Char)
  | (acc, none), c => if c == '{' then (acc, some []) else (Tok.lit c :: acc, none)
  | (acc, some buf), c => if c == '}' then (Tok.wild :: acc, none) else (acc, some (c :: buf))

/-- Tokenize a path template (the `/\x7b.*?\x7d/g` replacement of the source).
An unclosed `{` and the characters after it are flushed back as literals. -/
def tokenize (cs : List Char) : List Tok :=
  match cs.foldl tokStep ([], none) with
  | (acc, none) => acc.reverse
  | (acc, some buf) => (buf.map Tok.lit ++ Tok.lit '{' :: acc).reverse

/-- Anchored match of a token list against a path; `Tok.wild` matches one or
more non-`/` characters (the `[^/]+` of the source's generated regex). -/
def matchToks : List Tok → List Char → Bool
  | [], cs => cs.isEmpty
  | Tok.lit _ :: _, [] => false
  | Tok.lit c :: ts, d :: cs => c == d && matchToks ts cs
  | Tok.wild :: _, [] => false
  | Tok.wild :: ts, c :: cs =>
    !(c == '/') && (matchToks ts cs || matchToks (Tok.wild :: ts) cs)

/-- Does the template (as a pattern) accept the given concrete path? -/
def templateMatch (template path : String) : Bool :=
  matchToks (tokenize template.data) path.data

/-- Specificity score of a template: its length after removing every
placeholder — the number of literal characters in its tokenization
(`op.path.replace(/\x7b.*?\x7d/g, '').length` in the source). -/
def specificity (template : String) : Nat :=
  (tokenize template.data).countP (fun t => match t with | Tok.lit _ => true | Tok.wild => false)

/-! ## The data model of the contract document -/

/-- An OpenAPI parameter object, restricted to the fields the router reads. -/
structure ParameterObject where
  name : String
  paramIn : String
  style : Option String := none
  explode : Option Bool := none
deriving DecidableEq, Repr

/-- A security requirement object: scheme name to scope list. -/
abbrev SecurityRequirement := List (String × List String)

/-- An OpenAPI operation object, restricted to the fields the router reads. -/
structure OperationObject where
  operationId : Option String := none
  parameters : List ParameterObject := []
  security : Option (List SecurityRequirement) := none
deriving DecidableEq, Repr

/-- A path item object: its operations keyed by lower-case HTTP method, kept
in declaration order like a JS object, plus path-level shared parameters. -/
structure PathItemObject where
  methods : List (String × OperationObject) := []
  parameters : List ParameterObject := []
deriving DecidableEq, Repr

/-- The contract document: the `paths` object in declaration order plus the
document-level default `security`. -/
structure Document where
  paths : List (String × PathItemObject) := []
  security : Option (List SecurityRequirement) := none
deriving DecidableEq, Repr

/-- A flattened operation descriptor (`Operation` of the source): the
operation object enriched with its path, method, merged parameters and
effective security. -/
structure Operation where
  path : String
  method : String
  operationId : Option String := none
  parameters : List ParameterObject := []
  security : List SecurityRequirement := []
deriving DecidableEq, Repr

/-- The router instance: the definition document and the api root. -/
structure OpenAPIRouter where
  definition : Document
  apiRoot : String := "/"
deriving DecidableEq, Repr

/-- The constructor: `apiRoot` defaults to `"/"`, and an empty string is
falsy in JS so it also yields `"/"` (`opts.apiRoot || '/'`). -/
def mkRouter (definition : Document) (apiRoot : Option String) : OpenAPIRouter :=
  { definition,
    apiRoot := match apiRoot with
      | some r => if r = "" then "/" else r
      | none => "/" }

/-- The fixed method list of the `_.pick` call in `getOperations`; `_.pick`
returns its result's keys in this order, not in document order. -/
def httpMethods : List String :=
  ["get", "put", "post", "delete", "options", "head", "patch", "trace"]

/-- `_.pick(pathBaseObject, httpMethods)` followed by `_.entries`: for each
method of the fixed list that the path item declares, its operation object,
in the fixed list's order. -/
def pickMethods (pi : PathItemObject) : List (String × OperationObject) :=
  httpMethods.filterMap fun m =>
    (pi.methods.find? (fun e => e.1 == m)).map fun e => (m, e.2)

/-- `getOperations`: flatten the document into operation descriptors.  The
descriptor's parameters are the operation's own followed by the path item's
(the source spreads the operation first), and its security is the
operation's own if present, else the document default, else empty. -/
def getOperations (r : OpenAPIRouter) : List Operation :=
  r.definition.paths.flatMap fun pe =>
    (pickMethods pe.2).map fun me =>
      { path := pe.1
        method := me.1
        operationId := me.2.operationId
        parameters := me.2.parameters ++ pe.2.parameters
        security := me.2.security.getD (r.definition.security.getD []) }

/-- `getOperation`: first descriptor with the given operationId. -/
def getOperation (r : OpenAPIRouter) (operationId : String) : Option Operation :=
  (getOperations r).find? (fun op => op.operationId == some operationId)

/-! ## Requests and normalization -/

/-- A header value: a single string or a list of strings. -/
inductive HeaderVal where
  | str (s : String)
  | arr (a : List String)
deriving DecidableEq, Repr

/-- A value stored in a parsed-query object.  `undef` models a JS
`undefined` stored under a key by an assignment. -/
inductive QVal where
  | str (s : String)
  | arr (a : List String)
  | undef
deriving DecidableEq, Repr

/-- A query object: string-keyed map in insertion order. -/
abbrev QueryMap := List (String × QVal)

/-- The `query` field of a raw request: already-structured object or raw
string. -/
inductive QueryInput where
  | obj (m : QueryMap)
  | str (s : String)
deriving DecidableEq, Repr

/-- A JSON value, as produced by the model of `JSON.parse`.  Numbers are kept
as their validated lexemes so that no floating-point semantics enters the
model. -/
inductive Json where
  | null
  | bool (b : Bool)
  | num (lexeme : String)
  | str (s : String)
  | arr (elems : List Json)
  | obj (fields : List (String × Json))

/-- A request body: a raw (string) value or an already-structured value
(anything of JS `typeof` "object"). -/
inductive BodyIn where
  | raw (s : String)
  | structured (j : Json)

/-- A raw request. -/
structure Request where
  method : String
  path : String
  headers : List (String × HeaderVal) := []
  query : Option QueryInput := none
  body : Option BodyIn := none

/-- `normalizeRequest`'s path treatment: trim, cut at the first `?`, drop the
run of trailing slashes, replace the run of leading slashes by exactly
one `/`. -/
def normalizeReqPath (p : String) : String :=
  let cs := jsTrim p.data
  let cs := cs.takeWhile (fun c => !(c == '?'))
  let cs := (cs.reverse.dropWhile (fun c => c == '/')).reverse
  ⟨'/' :: cs.dropWhile (fun c => c == '/')⟩

/-- `normalizeRequest`: lower-cased trimmed method, normalized path, other
fields kept. -/
def normalizeRequest (req : Request) : Request :=
  { req with
    path := normalizeReqPath req.path
    method := ⟨jsToLower (jsTrim req.method.data)⟩ }

/-- `normalizePath`: strip the `apiRoot` prefix and at most one following
slash, replacing them with a single leading slash
(`path.replace(new RegExp('^' + apiRoot + '/?'), '/')` for a literal
`apiRoot`); a path not starting with `apiRoot` is returned unchanged. -/
def normalizePath (r : OpenAPIRouter) (path : String) : String :=
  if isPre r.apiRoot.data path.data then
    let t := path.data.drop r.apiRoot.data.length
    ⟨'/' :: (match t with | '/' :: t' => t' | _ => t)⟩
  else path

/-! ## matchOperation -/

/-- Outcome of `matchOperation`: a descriptor, a strict-mode throw with its
message, or the `undefined` of non-strict mode. -/
inductive MatchOutcome where
  | ok (op : Operation)
  | err (msg : String)
  | absent
deriving DecidableEq, Repr

/-- The message thrown for the not-found condition. -/
def msg404 : String := "404-notFound: no route matches request"

/-- The message thrown for the method-not-allowed condition. -/
def msg405 : String := "405-methodNotAllowed: this method is not registered for the route"

/-- The comparison path: normalized request path with the root stripped. -/
def compPath (r : OpenAPIRouter) (req : Request) : String :=
  normalizePath r (normalizeRequest req).path

/-- The exact phase: among descriptors whose template literally equals the
comparison path, the first with the request's method. -/
def exactFind (r : OpenAPIRouter) (req : Request) : Option Operation :=
  ((getOperations r).filter (fun op => op.path == compPath r req)).find?
    (fun op => op.method == (normalizeRequest req).method)

/-- The template phase's candidates: descriptors whose template pattern
accepts the comparison path. -/
def templateMatches (r : OpenAPIRouter) (req : Request) : List Operation :=
  (getOperations r).filter (fun op => templateMatch op.path (compPath r req))

/-- Stable insertion of `x` before the first element of strictly smaller
key — the stable descending order of lodash `orderBy(..., 'desc')`. -/
def insertDesc (key : Operation → Nat) (x : Operation) : List Operation → List Operation
  | [] => [x]
  | y :: ys => if key x < key y then y :: insertDesc key x ys else x :: y :: ys

/-- Stable sort, descending by `key`; ties keep original order. -/
def sortDesc (key : Operation → Nat) : List Operation → List Operation
  | [] => []
  | x :: xs => insertDesc key x (sortDesc key xs)

/-- The template phase: candidates ordered descending by specificity
(stably), then the first with the request's method. -/
def templateFind (r : OpenAPIRouter) (req : Request) : Option Operation :=
  (sortDesc (fun op => specificity op.path) (templateMatches r req)).find?
    (fun op => op.method == (normalizeRequest req).method)

/-- `matchOperation`: normalize, check the root prefix, exact phase, template
phase, with strict-mode throws and non-strict `undefined`. -/
def matchOperation (r : OpenAPIRouter) (req : Request) (strict : Bool) : MatchOutcome :=
  let nreq := normalizeRequest req
  if !(isPre r.apiRoot.data nreq.path.data) then
    if strict then .err msg404 else .absent
  else
    match exactFind r req with
    | some op => .ok op
    | none =>
      if (templateMatches r req).isEmpty then
        if strict then .err msg404 else .absent
      else
        match templateFind r req with
        | some op => .ok op
        | none => if strict then .err msg405 else .absent

/-! ## General list lemmas used by several claims -/

/-- A successful `find?` splits the list at its witness, everything before
failing the predicate. -/
theorem find?_eq_some_split {α : Type} {p : α → Bool} {a : α} : ∀ {l : List α},
    l.find? p = some a → ∃ l1 l2, l = l1 ++ a :: l2 ∧ ∀ x ∈ l1, p x = false
  | [], h => by simp [List.find?] at h
  | x :: xs, h => by
    by_cases hx : p x
    · refine ⟨[], xs, ?_, by simp⟩
      simp [List.find?, hx] at h
      simp [h]
    · simp only [List.find?, Bool.not_eq_true] at h hx
      rw [hx] at h
      obtain ⟨l1, l2, rfl, hfail⟩ := find?_eq_some_split (l := xs) h
      exact ⟨x :: l1, l2, rfl, by
        intro y hy
        rcases List.mem_cons.mp hy with rfl | hy
        · exact hx
        · exact hfail y hy⟩

/-- If `a` is the unique element of `l` satisfying `p`, then `find?` returns
it, provided it is present. -/
theorem find?_of_unique {α : Type} {p : α → Bool} {a : α} : ∀ {l : List α},
    a ∈ l → p a = true → (∀ b ∈ l, p b = true → b = a) → l.find? p = some a
  | [], h, _, _ => absurd h (List.not_mem_nil a)
  | x :: xs, h, hpa, huniq => by
    by_cases hx : p x
    · have : x = a := huniq x (List.mem_cons_self x xs) hx
      simp [List.find?, this ▸ hx, this]
    · simp only [Bool.not_eq_true] at hx
      rcases List.mem_cons.mp h with rfl | h
      · exact absurd hpa (by simp [hx])
      · simp only [List.find?, hx]
        exact find?_of_unique h hpa (fun b hb => huniq b (List.mem_cons_of_mem x hb))

/-- In an association list with `Nodup` keys, a key determines its value. -/
theorem nodup_keys_eq {β : Type} {a : String} {b1 b2 : β} : ∀ {l : List (String × β)},
    (l.map Prod.fst).Nodup → (a, b1) ∈ l → (a, b2) ∈ l → b1 = b2
  | [], _, h, _ => absurd h (List.not_mem_nil _)
  | x :: xs, hnd, h1, h2 => by
    rw [List.map_cons, List.nodup_cons] at hnd
    rcases List.mem_cons.mp h1 with rfl | h1'
    · rcases List.mem_cons.mp h2 with heq | h2'
      · exact (congrArg Prod.snd heq).symm
      · have hmem : (a, b2).1 ∈ xs.map Prod.fst := List.mem_map_of_mem Prod.fst h2'
        exact (hnd.1 hmem).elim
    · rcases List.mem_cons.mp h2 with rfl | h2'
      · have hmem : (a, b1).1 ∈ xs.map Prod.fst := List.mem_map_of_mem Prod.fst h1'
        exact (hnd.1 hmem).elim
      · exact nodup_keys_eq hnd.2 h1' h2'

/-! ## Structure of `getOperations` -/

/-- The descriptor built by `getOperations` from a path entry and a picked
method entry. -/
def descriptorOf (doc : Document) (pe : String × PathItemObject)
    (me : String × OperationObject) : Operation :=
  { path := pe.1
    method := me.1
    operationId := me.2.operationId
    parameters := me.2.parameters ++ pe.2.parameters
    security := me.2.security.getD (doc.security.getD []) }

theorem getOperations_eq (r : OpenAPIRouter) :
    getOperations r =
      r.definition.paths.flatMap
        (fun pe => (pickMethods pe.2).map (descriptorOf r.definition pe)) := rfl

/-- Membership in `getOperations`, unpacked to the document entries. -/
theorem mem_getOperations {r : OpenAPIRouter} {op : Operation} :
    op ∈ getOperations r ↔
      ∃ pe ∈ r.definition.paths, ∃ me ∈ pickMethods pe.2,
        descriptorOf r.definition pe me = op := by
  rw [getOperations_eq]
  simp only [List.mem_flatMap, List.mem_map]

/-- An entry of `pickMethods` comes from a successful lookup of one of the
eight fixed methods. -/
theorem mem_pickMethods {pi : PathItemObject} {me : String × OperationObject}
    (h : me ∈ pickMethods pi) :
    me.1 ∈ httpMethods ∧ ∃ e, pi.methods.find? (fun e => e.1 == me.1) = some e ∧ e.2 = me.2 := by
  unfold pickMethods at h
  rw [List.mem_filterMap] at h
  obtain ⟨m, hm, hf⟩ := h
  rw [Option.map_eq_some'] at hf
  obtain ⟨e, he, heq⟩ := hf
  cases heq
  exact ⟨hm, e, he, rfl⟩

/-- With unique path keys, a descriptor is determined by its
(path, method) pair. -/
theorem getOperations_unique {r : OpenAPIRouter} {op1 op2 : Operation}
    (hnd : (r.definition.paths.map Prod.fst).Nodup)
    (h1 : op1 ∈ getOperations r) (h2 : op2 ∈ getOperations r)
    (hpath : op1.path = op2.path) (hmethod : op1.method = op2.method) : op1 = op2 := by
  obtain ⟨pe1, hpe1, me1, hme1, hd1⟩ := mem_getOperations.mp h1
  obtain ⟨pe2, hpe2, me2, hme2, hd2⟩ := mem_getOperations.mp h2
  have hp1 : op1.path = pe1.1 := by rw [← hd1]; rfl
  have hp2 : op2.path = pe2.1 := by rw [← hd2]; rfl
  have hm1 : op1.method = me1.1 := by rw [← hd1]; rfl
  have hm2 : op2.method = me2.1 := by rw [← hd2]; rfl
  have hkey : pe1.1 = pe2.1 := by rw [← hp1, ← hp2, hpath]
  have hpe : pe1 = pe2 := by
    rcases pe1 with ⟨k1, v1⟩; rcases pe2 with ⟨k2, v2⟩
    simp only at hkey
    subst hkey
    exact congrArg _ (nodup_keys_eq hnd hpe1 hpe2)
  subst hpe
  have hmkey : me1.1 = me2.1 := by rw [← hm1, ← hm2, hmethod]
  have hme : me1 = me2 := by
    obtain ⟨_, e1, hf1, he1⟩ := mem_pickMethods hme1
    obtain ⟨_, e2, hf2, he2⟩ := mem_pickMethods hme2
    rw [hmkey, hf2] at hf1
    have he : e2 = e1 := Option.some.inj hf1
    have hsnd : me1.2 = me2.2 := by rw [← he1, ← he2, he]
    exact Prod.ext hmkey hsnd
  rw [← hd1, ← hd2, hme]

/-! ## Claim C1: the exact phase -/

/-- C1: for every contract document (with the JS-object invariant of unique
path keys) and every registered (path template, method) descriptor, a request
whose normalized, root-stripped path literally equals that template and whose
normalized method equals that method is resolved by `matchOperation` to that
descriptor — via the exact phase, hence even when some other operation's
template would also match the same concrete path via wildcard expansion. -/
theorem claim1_exact_phase (r : OpenAPIRouter) (req : Request) (strict : Bool) (op : Operation)
    (hnd : (r.definition.paths.map Prod.fst).Nodup)
    (hop : op ∈ getOperations r)
    (hroot : isPre r.apiRoot.data (normalizeRequest req).path.data = true)
    (hpath : compPath r req = op.path)
    (hmethod : (normalizeRequest req).method = op.method) :
    matchOperation r req strict = .ok op := by
  have hfind : exactFind r req = some op := by
    apply find?_of_unique
    · rw [List.mem_filter]
      exact ⟨hop, by rw [hpath]; simp⟩
    · rw [hmethod]; simp
    · intro b hb hbm
      rw [List.mem_filter] at hb
      apply getOperations_unique hnd hb.1 hop
      · exact (eq_of_beq hb.2).trans hpath
      · exact (eq_of_beq hbm).trans hmethod
  simp only [matchOperation, hroot, Bool.not_true, Bool.false_eq_true, if_false, hfind]

/-- Document for the C1 witness: an exact path and a template that also
matches it. -/
def c1Doc : Document :=
  { paths :=
      [("/pets/\x7bid\x7d", { methods := [("get", { operationId := some "getPetById" })] }),
       ("/pets/mine", { methods := [("get", { operationId := some "getOwnPets" })] })] }

/-- Router for the C1 witness. -/
def c1Router : OpenAPIRouter := { definition := c1Doc }

/-- Request for the C1 witness; `/pets/mine` is also matched by the
`/pets/\x7bid\x7d` template. -/
def c1Req : Request := { method := "GET", path := "/pets/mine" }

/-- The descriptor C1 must resolve to. -/
def c1Op : Operation :=
  { path := "/pets/mine", method := "get", operationId := some "getOwnPets" }

/-- Witness for C1 at a concrete router and request. -/
theorem claim1_exact_phase_witness : matchOperation c1Router c1Req false = .ok c1Op :=
  claim1_exact_phase c1Router c1Req false c1Op (by decide) (by decide) (by decide)
    (by decide) (by decide)

/-! ## Claim C2: specificity ordering in the template phase -/

theorem insertDesc_perm (key : Operation → Nat) (x : Operation) :
    ∀ l : List Operation, (insertDesc key x l).Perm (x :: l)
  | [] => List.Perm.refl _
  | y :: ys => by
    unfold insertDesc
    by_cases h : key x < key y
    · rw [if_pos h]
      exact ((insertDesc_perm key x ys).cons y).trans (List.Perm.swap x y ys)
    · rw [if_neg h]

theorem sortDesc_perm (key : Operation → Nat) :
    ∀ l : List Operation, (sortDesc key l).Perm l
  | [] => List.Perm.refl _
  | x :: xs =>
    (insertDesc_perm key x (sortDesc key xs)).trans ((sortDesc_perm key xs).cons x)

theorem insertDesc_sorted (key : Operation → Nat) (x : Operation) :
    ∀ {l : List Operation}, l.Pairwise (fun a b => key b ≤ key a) →
      (insertDesc key x l).Pairwise (fun a b => key b ≤ key a)
  | [], _ => List.pairwise_singleton _ x
  | y :: ys, h => by
    rw [List.pairwise_cons] at h
    unfold insertDesc
    by_cases hk : key x < key y
    · rw [if_pos hk]
      rw [List.pairwise_cons]
      refine ⟨?_, insertDesc_sorted key x h.2⟩
      intro b hb
      rcases List.mem_cons.mp (((insertDesc_perm key x ys).mem_iff).mp hb) with rfl | hb'
      · exact Nat.le_of_lt hk
      · exact h.1 b hb'
    · rw [if_neg hk]
      rw [List.pairwise_cons]
      refine ⟨?_, List.pairwise_cons.mpr h⟩
      intro b hb
      rcases List.mem_cons.mp hb with rfl | hb
      · exact Nat.le_of_not_lt hk
      · exact Nat.le_trans (h.1 b hb) (Nat.le_of_not_lt hk)

theorem sortDesc_sorted (key : Operation → Nat) :
    ∀ l : List Operation, (sortDesc key l).Pairwise (fun a b => key b ≤ key a)
  | [] => List.Pairwise.nil
  | x :: xs => insertDesc_sorted key x (sortDesc_sorted key xs)

/-- Inserting an element accepted by `q` whose key is maximal among
`q`-accepted elements puts it in front of every other `q`-accepted one. -/
theorem insertDesc_filter_pos (key : Operation → Nat) (q : Operation → Bool) (x : Operation)
    (hx : q x = true) (hqx : ∀ y, q y = true → key y ≤ key x) :
    ∀ l : List Operation, (insertDesc key x l).filter q = x :: l.filter q
  | [] => by simp [insertDesc, hx]
  | y :: ys => by
    unfold insertDesc
    by_cases hk : key x < key y
    · rw [if_pos hk]
      have hqy : q y = false := by
        cases hy : q y
        · rfl
        · exact absurd (hqx y hy) (Nat.not_le_of_lt hk)
      rw [List.filter_cons_of_neg (by rw [hqy]; exact Bool.false_ne_true),
        List.filter_cons_of_neg (by rw [hqy]; exact Bool.false_ne_true)]
      exact insertDesc_filter_pos key q x hx hqx ys
    · rw [if_neg hk]
      rw [List.filter_cons_of_pos hx]

/-- Inserting an element rejected by `q` leaves the `q`-filtered list
unchanged. -/
theorem insertDesc_filter_neg (key : Operation → Nat) (q : Operation → Bool) (x : Operation)
    (hx : q x = false) :
    ∀ l : List Operation, (insertDesc key x l).filter q = l.filter q
  | [] => by simp [insertDesc, hx]
  | y :: ys => by
    unfold insertDesc
    by_cases hk : key x < key y
    · rw [if_pos hk]
      rw [List.filter_cons, List.filter_cons]
      rw [insertDesc_filter_neg key q x hx ys]
    · rw [if_neg hk]
      rw [List.filter_cons_of_neg (by rw [hx]; exact Bool.false_ne_true)]

/-- Stability of the sort: filtering by a predicate that forces a single key
value commutes with sorting, i.e. elements of equal key keep their original
relative order. -/
theorem sortDesc_filter (key : Operation → Nat) (q : Operation → Bool)
    (hq : ∀ y z, q y = true → q z = true → key y = key z) :
    ∀ l : List Operation, (sortDesc key l).filter q = l.filter q
  | [] => rfl
  | x :: xs => by
    unfold sortDesc
    cases hx : q x
    · rw [insertDesc_filter_neg key q x hx]
      rw [List.filter_cons_of_neg (by rw [hx]; exact Bool.false_ne_true)]
      exact sortDesc_filter key q hq xs
    · rw [insertDesc_filter_pos key q x hx
        (fun y hy => Nat.le_of_eq (hq y x hy hx))]
      rw [List.filter_cons_of_pos hx]
      rw [sortDesc_filter key q hq xs]

/-- C2: when the template phase decides the match (no exact match), the
returned descriptor is a template-matching candidate with the request's
method whose specificity — the literal length of its template after removing
every placeholder — is maximal among method-matching candidates, and it is
the first candidate in document order among those of that maximal
specificity: exactly the first method hit of the stable specificity-descending
ordering. -/
theorem claim2_template_specificity (r : OpenAPIRouter) (req : Request) (op : Operation)
    (hroot : isPre r.apiRoot.data (normalizeRequest req).path.data = true)
    (hexact : exactFind r req = none)
    (hfound : templateFind r req = some op) :
    (∀ strict, matchOperation r req strict = .ok op) ∧
    op ∈ templateMatches r req ∧
    op.method = (normalizeRequest req).method ∧
    templateMatch op.path (compPath r req) = true ∧
    (∀ o ∈ templateMatches r req, o.method = (normalizeRequest req).method →
      specificity o.path ≤ specificity op.path) ∧
    ((templateMatches r req).filter
        (fun o => (o.method == (normalizeRequest req).method) &&
          (specificity o.path == specificity op.path))).head? = some op := by
  have hperm := sortDesc_perm (fun o => specificity o.path) (templateMatches r req)
  have hfound' : (sortDesc (fun o => specificity o.path) (templateMatches r req)).find?
      (fun o => o.method == (normalizeRequest req).method) = some op := hfound
  have hp : (op.method == (normalizeRequest req).method) = true := by
    have h := List.find?_some hfound'
    exact h
  have hmem_s : op ∈ sortDesc (fun o => specificity o.path) (templateMatches r req) :=
    List.mem_of_find?_eq_some hfound'
  have hmem : op ∈ templateMatches r req := hperm.mem_iff.mp hmem_s
  obtain ⟨s1, s2, hs, hfail⟩ := find?_eq_some_split hfound'
  have hsort := sortDesc_sorted (fun o => specificity o.path) (templateMatches r req)
  rw [hs] at hsort
  rw [List.pairwise_append] at hsort
  have hsort2 := List.pairwise_cons.mp hsort.2.1
  have hmax : ∀ o ∈ templateMatches r req,
      o.method = (normalizeRequest req).method →
      specificity o.path ≤ specificity op.path := by
    intro o ho hom
    have hos : o ∈ s1 ++ op :: s2 := by rw [← hs]; exact hperm.mem_iff.mpr ho
    rcases List.mem_append.mp hos with h1 | h2
    · have : (o.method == (normalizeRequest req).method) = false := hfail o h1
      rw [hom] at this
      simp at this
    · rcases List.mem_cons.mp h2 with rfl | h2'
      · exact Nat.le_refl _
      · exact hsort2.1 o h2'
  refine ⟨?_, hmem, eq_of_beq hp, (List.mem_filter.mp hmem).2, hmax, ?_⟩
  · intro strict
    have hne : (templateMatches r req).isEmpty = false := by
      cases htm : templateMatches r req
      · rw [htm] at hmem
        exact absurd hmem (List.not_mem_nil op)
      · rfl
    simp only [matchOperation, hroot, Bool.not_true, Bool.false_eq_true, if_false, hexact,
      hne, hfound]
  · have hqop : ((op.method == (normalizeRequest req).method) &&
        (specificity op.path == specificity op.path)) = true := by
      rw [hp]; simp
    have hq : ∀ y z : Operation,
        ((y.method == (normalizeRequest req).method) &&
          (specificity y.path == specificity op.path)) = true →
        ((z.method == (normalizeRequest req).method) &&
          (specificity z.path == specificity op.path)) = true →
        specificity y.path = specificity z.path := by
      intro y z hy hz
      rw [Bool.and_eq_true] at hy hz
      exact (beq_iff_eq.mp hy.2).trans (beq_iff_eq.mp hz.2).symm
    have hstab := sortDesc_filter (fun o => specificity o.path)
      (fun o => (o.method == (normalizeRequest req).method) &&
        (specificity o.path == specificity op.path)) hq (templateMatches r req)
    rw [← hstab, hs, List.filter_append]
    have hs1 : s1.filter (fun o => (o.method == (normalizeRequest req).method) &&
        (specificity o.path == specificity op.path)) = [] := by
      rw [List.filter_eq_nil_iff]
      intro a ha
      rw [hfail a ha]
      simp
    rw [hs1, List.nil_append, List.filter_cons, if_pos hqop]
    rfl

/-- Document for the C2 witness: the two templates of the claim. -/
def c2Doc : Document :=
  { paths :=
      [("/pets/\x7bid\x7d", { methods := [("get", { operationId := some "getPetById" })] }),
       ("/pets/\x7bid\x7d/photos", { methods := [("get", { operationId := some "getPetPhotos" })] })] }

/-- Router for the C2 witness. -/
def c2Router : OpenAPIRouter := { definition := c2Doc }

/-- Request for the C2 witness. -/
def c2Req : Request := { method := "GET", path := "/pets/1/photos" }

/-- The descriptor the C2 request must resolve to. -/
def c2PhotosOp : Operation :=
  { path := "/pets/\x7bid\x7d/photos", method := "get", operationId := some "getPetPhotos" }

/-- Witness for C2: `/pets/1/photos` resolves to `/pets/\x7bid\x7d/photos`,
never `/pets/\x7bid\x7d`. -/
theorem claim2_template_specificity_witness :
    matchOperation c2Router c2Req true = .ok c2PhotosOp :=
  (claim2_template_specificity c2Router c2Req c2PhotosOp (by decide) (by decide)
    (by decide)).1 true

/-! ## Claim C3: strict-mode failures and non-strict absence -/

/-- Does the normalized request path start with the configured root? -/
def rootOkB (r : OpenAPIRouter) (req : Request) : Bool :=
  isPre r.apiRoot.data (normalizeRequest req).path.data

/-- Does some operation's template literally equal the comparison path? -/
def hasExactPathB (r : OpenAPIRouter) (req : Request) : Bool :=
  (getOperations r).any (fun op => op.path == compPath r req)

/-- Does some operation's template match the comparison path as a pattern? -/
def hasTemplateMatchB (r : OpenAPIRouter) (req : Request) : Bool :=
  (getOperations r).any (fun op => templateMatch op.path (compPath r req))

/-- Does some operation's template match the comparison path and declare the
request's method? -/
def hasTemplateMethodB (r : OpenAPIRouter) (req : Request) : Bool :=
  (getOperations r).any (fun op =>
    templateMatch op.path (compPath r req) && op.method == (normalizeRequest req).method)

/-- Well-formedness of a document's path templates: each template, read as a
pattern, accepts its own literal text.  This holds for every OpenAPI path
(it can only fail when a placeholder spans a `/`, as in `/x\x7ba/b\x7d`). -/
def selfMatching (doc : Document) : Bool :=
  doc.paths.all (fun pe => templateMatch pe.1 pe.1)

theorem filter_isEmpty_eq {α : Type} (p : α → Bool) :
    ∀ l : List α, (l.filter p).isEmpty = !l.any p
  | [] => rfl
  | c :: cs => by
    rw [List.filter_cons, List.any_cons]
    cases hc : p c
    · rw [if_neg Bool.false_ne_true]
      rw [filter_isEmpty_eq p cs]
      rfl
    · rw [if_pos rfl]
      rfl

/-- For a self-matching document, a template equal to the comparison path
also matches it as a pattern. -/
theorem exact_implies_template {r : OpenAPIRouter} {req : Request}
    (hwf : selfMatching r.definition = true)
    (h : hasExactPathB r req = true) : hasTemplateMatchB r req = true := by
  rw [hasExactPathB, List.any_eq_true] at h
  obtain ⟨op, hop, hpath⟩ := h
  rw [hasTemplateMatchB, List.any_eq_true]
  refine ⟨op, hop, ?_⟩
  have hpe : op.path = compPath r req := eq_of_beq hpath
  rw [← hpe]
  obtain ⟨pe, hpemem, me, _, hd⟩ := mem_getOperations.mp hop
  have : op.path = pe.1 := by rw [← hd]; rfl
  rw [this]
  rw [selfMatching, List.all_eq_true] at hwf
  exact hwf pe hpemem

/-- A successful exact phase implies a method-matching template candidate
(for a self-matching document). -/
theorem exactFind_some_template {r : OpenAPIRouter} {req : Request} {op : Operation}
    (hwf : selfMatching r.definition = true)
    (h : exactFind r req = some op) : hasTemplateMethodB r req = true := by
  have hmem := List.mem_of_find?_eq_some h
  have hmethod : (op.method == (normalizeRequest req).method) = true := by
    have hx := List.find?_some h
    exact hx
  rw [List.mem_filter] at hmem
  have hpe : op.path = compPath r req := eq_of_beq hmem.2
  obtain ⟨pe, hpemem, me, _, hd⟩ := mem_getOperations.mp hmem.1
  have hpp : op.path = pe.1 := by rw [← hd]; rfl
  rw [hasTemplateMethodB, List.any_eq_true]
  refine ⟨op, hmem.1, ?_⟩
  rw [Bool.and_eq_true]
  refine ⟨?_, hmethod⟩
  rw [← hpe, hpp]
  rw [selfMatching, List.all_eq_true] at hwf
  exact hwf pe hpemem

/-- The exact phase succeeding means some template equals the comparison
path. -/
theorem exactFind_some_hasExact {r : OpenAPIRouter} {req : Request} {op : Operation}
    (h : exactFind r req = some op) : hasExactPathB r req = true := by
  have hmem := List.mem_of_find?_eq_some h
  rw [List.mem_filter] at hmem
  rw [hasExactPathB, List.any_eq_true]
  exact ⟨op, hmem.1, hmem.2⟩

/-- The template phase fails exactly when no template candidate declares the
request's method. -/
theorem templateFind_none_iff {r : OpenAPIRouter} {req : Request} :
    templateFind r req = none ↔ hasTemplateMethodB r req = false := by
  rw [templateFind, List.find?_eq_none, hasTemplateMethodB]
  constructor
  · intro h
    rw [← Bool.not_eq_true, List.any_eq_true]
    rintro ⟨op, hop, hq⟩
    rw [Bool.and_eq_true] at hq
    have hmem : op ∈ templateMatches r req := List.mem_filter.mpr ⟨hop, hq.1⟩
    have hmem' : op ∈ sortDesc (fun o => specificity o.path) (templateMatches r req) :=
      (sortDesc_perm _ _).mem_iff.mpr hmem
    exact h op hmem' hq.2
  · intro h op hop
    have hmem0 : op ∈ templateMatches r req := (sortDesc_perm _ _).mem_iff.mp hop
    have hmem : op ∈ getOperations r ∧ templateMatch op.path (compPath r req) = true :=
      List.mem_filter.mp hmem0
    intro hq
    have : (getOperations r).any (fun op =>
        templateMatch op.path (compPath r req) && op.method == (normalizeRequest req).method)
        = true := by
      rw [List.any_eq_true]
      exact ⟨op, hmem.1, by rw [Bool.and_eq_true]; exact ⟨hmem.2, hq⟩⟩
    rw [h] at this
    exact Bool.false_ne_true this

/-- `matchOperation`, restated by cases over the phase conditions. -/
theorem matchOperation_cases (r : OpenAPIRouter) (req : Request) (strict : Bool) :
    matchOperation r req strict =
      if rootOkB r req = false then (if strict then .err msg404 else .absent)
      else
        match exactFind r req with
        | some op => .ok op
        | none =>
          if hasTemplateMatchB r req = false then (if strict then .err msg404 else .absent)
          else
            match templateFind r req with
            | some op => .ok op
            | none => if strict then .err msg405 else .absent := by
  have hie : (templateMatches r req).isEmpty = !(hasTemplateMatchB r req) :=
    filter_isEmpty_eq _ _
  simp only [matchOperation, rootOkB]
  rcases Bool.eq_false_or_eq_true (isPre r.apiRoot.data (normalizeRequest req).path.data)
    with hroot | hroot
  all_goals simp only [hroot, hie, Bool.not_true, Bool.not_false, Bool.false_eq_true,
    Bool.true_eq_false, if_true, if_false]
  · cases hex : exactFind r req
    · simp only [hex]
      rcases Bool.eq_false_or_eq_true (hasTemplateMatchB r req) with htm | htm
      all_goals simp only [htm, Bool.not_true, Bool.not_false, Bool.false_eq_true,
        Bool.true_eq_false, if_true, if_false]
    · simp only [hex]

/-- C3: in strict mode `matchOperation` raises exactly the two fixed
messages — the not-found message when the path misses the root prefix or no
template (exact or wildcarded) matches the comparison path, and the
method-not-allowed message when some template matches but no matching
operation declares the method; in non-strict mode it never raises and
returns the absent value in exactly those two situations, with no
distinction.  The document is assumed self-matching (every OpenAPI template
accepts its own literal text). -/
theorem claim3_strict_failures (r : OpenAPIRouter) (req : Request)
    (hwf : selfMatching r.definition = true) :
    ((matchOperation r req true = .err msg404) ↔
      (rootOkB r req = false ∨
        (hasExactPathB r req = false ∧ hasTemplateMatchB r req = false))) ∧
    ((matchOperation r req true = .err msg405) ↔
      (rootOkB r req = true ∧ hasTemplateMatchB r req = true ∧
        hasTemplateMethodB r req = false)) ∧
    (∀ e, matchOperation r req false ≠ .err e) ∧
    ((matchOperation r req false = .absent) ↔
      (matchOperation r req true = .err msg404 ∨ matchOperation r req true = .err msg405)) := by
  have hc1 := matchOperation_cases r req true
  have hc0 := matchOperation_cases r req false
  cases hroot : rootOkB r req
  · rw [hroot] at hc1 hc0
    simp only [if_pos] at hc1 hc0
    simp [hc1, hc0, hroot, msg404, msg405]
  · rw [hroot] at hc1 hc0
    simp only [Bool.true_eq_false, if_neg, if_false] at hc1 hc0
    cases hex : exactFind r req
    · rw [hex] at hc1 hc0
      cases htm : hasTemplateMatchB r req
      · rw [htm] at hc1 hc0
        simp only [if_pos] at hc1 hc0
        have hexp : hasExactPathB r req = false := by
          cases hv : hasExactPathB r req
          · rfl
          · have h1 := exact_implies_template hwf hv
            rw [htm] at h1
            exact Bool.noConfusion h1
        simp [hc1, hc0, hroot, htm, hexp, msg404, msg405]
      · rw [htm] at hc1 hc0
        simp only [Bool.true_eq_false, if_neg, if_false] at hc1 hc0
        cases htf : templateFind r req
        · rw [htf] at hc1 hc0
          have htmm : hasTemplateMethodB r req = false := templateFind_none_iff.mp htf
          simp [hc1, hc0, hroot, htm, htmm, msg404, msg405]
        · rw [htf] at hc1 hc0
          have htmm : hasTemplateMethodB r req = true := by
            cases hv : hasTemplateMethodB r req
            · rw [templateFind_none_iff.mpr hv] at htf
              exact Option.noConfusion htf
            · rfl
          simp [hc1, hc0, hroot, htm, htmm, msg404, msg405]
    · rw [hex] at hc1 hc0
      have hexp : hasExactPathB r req = true := exactFind_some_hasExact hex
      have htmm : hasTemplateMethodB r req = true := exactFind_some_template hwf hex
      have htm : hasTemplateMatchB r req = true :=
        exact_implies_template hwf hexp
      simp [hc1, hc0, hroot, hexp, htm, htmm, msg404, msg405]

/-- Document for the C3 witness. -/
def c3Doc : Document := { paths := [("/pets", { methods := [("get", {})] })] }

/-- Router for the C3 witness. -/
def c3Router : OpenAPIRouter := { definition := c3Doc }

/-- Request for the C3 witness: the path is registered, the method is not. -/
def c3Req : Request := { method := "POST", path := "/pets" }

/-- Witness for C3: a method-not-allowed request throws the fixed 405
message in strict mode and yields the absent value in non-strict mode. -/
theorem claim3_strict_failures_witness :
    matchOperation c3Router c3Req true = .err msg405 ∧
    matchOperation c3Router c3Req false = .absent := by
  have h := claim3_strict_failures c3Router c3Req (by decide)
  have h405 : matchOperation c3Router c3Req true = .err msg405 :=
    h.2.1.mpr ⟨by decide, by decide, by decide⟩
  exact ⟨h405, h.2.2.2.mpr (Or.inr h405)⟩

/-! ## Claim C10: plain-prefix root check and root stripping -/

theorem isPre_append : ∀ a b : List Char, isPre a (a ++ b) = true
  | [], _ => rfl
  | c :: cs, b => by simp [isPre, isPre_append cs b]

/-- Document for the C10 demonstration: registered under `/ary/pets`. -/
def c10Doc : Document := { paths := [("/ary/pets", { methods := [("get", {})] })] }

/-- Router with the non-trivial root `/api`. -/
def c10Router : OpenAPIRouter := { definition := c10Doc, apiRoot := "/api" }

/-- The descriptor the C10 request resolves to. -/
def c10Op : Operation := { path := "/ary/pets", method := "get" }

/-- C10: the root check is a plain string-prefix test with no
segment-boundary requirement, and `normalizePath` removes the `apiRoot`
prefix plus at most one following slash, replacing them with a single
leading slash; in particular with root `/api` the request path
`/apiary/pets` passes the root check, is stripped to `/ary/pets`, and is
matched rather than rejected with the not-found error. -/
theorem claim10_root_strip :
    (∀ (r : OpenAPIRouter) (rest : List Char),
      normalizePath r ⟨r.apiRoot.data ++ rest⟩ =
        ⟨'/' :: (match rest with | '/' :: t => t | _ => rest)⟩) ∧
    isPre "/api".data "/apiary/pets".data = true ∧
    normalizePath c10Router "/apiary/pets" = "/ary/pets" ∧
    matchOperation c10Router { method := "GET", path := "/apiary/pets" } true = .ok c10Op := by
  refine ⟨?_, by decide, by decide, by decide⟩
  intro r rest
  simp only [normalizePath]
  rw [isPre_append, if_pos rfl]
  rw [List.drop_left]

/-! ## Claim C7: merged parameters and effective security -/

/-- C7: every descriptor of the registry comes from a document entry and
carries the operation's own parameters followed by the path-level shared
parameters — so a by-name lookup (as the parameter parser performs with
`_.find`) resolves a colliding name to the operation-level entry — and an
effective security requirement equal to the operation's own if present,
else the document default, else empty. -/
theorem claim7_descriptor_merge (r : OpenAPIRouter) (d : Operation)
    (hd : d ∈ getOperations r) :
    ∃ pe ∈ r.definition.paths, ∃ me ∈ pickMethods pe.2,
      d.path = pe.1 ∧ d.method = me.1 ∧
      d.parameters = me.2.parameters ++ pe.2.parameters ∧
      d.security = me.2.security.getD (r.definition.security.getD []) ∧
      (∀ n : String, (me.2.parameters.find? (fun p => p.name == n)).isSome = true →
        d.parameters.find? (fun p => p.name == n) =
          me.2.parameters.find? (fun p => p.name == n)) := by
  obtain ⟨pe, hpe, me, hme, hd'⟩ := mem_getOperations.mp hd
  refine ⟨pe, hpe, me, hme, ?_, ?_, ?_, ?_, ?_⟩
  · rw [← hd']; rfl
  · rw [← hd']; rfl
  · rw [← hd']; rfl
  · rw [← hd']; rfl
  · intro n hsome
    have hpar : d.parameters = me.2.parameters ++ pe.2.parameters := by rw [← hd']; rfl
    rw [hpar, List.find?_append, Option.or_of_isSome hsome]

/-- Document for the C7 witness: an operation-level parameter shadowing a
path-level parameter of the same name, and a document-level default
security. -/
def c7Doc : Document :=
  { paths :=
      [("/things",
        { methods :=
            [("get",
              { operationId := some "listThings"
                parameters := [{ name := "limit", paramIn := "query", explode := some false }] })]
          parameters := [{ name := "limit", paramIn := "query", style := some "form" },
                         { name := "page", paramIn := "query" }] })]
    security := some [[("apiKey", [])]] }

/-- Router for the C7 witness. -/
def c7Router : OpenAPIRouter := { definition := c7Doc }

/-- The descriptor the C7 registry produces. -/
def c7Op : Operation :=
  { path := "/things", method := "get", operationId := some "listThings"
    parameters := [{ name := "limit", paramIn := "query", explode := some false },
                   { name := "limit", paramIn := "query", style := some "form" },
                   { name := "page", paramIn := "query" }]
    security := [[("apiKey", [])]] }

/-- Witness for C7 at a concrete document. -/
theorem claim7_descriptor_merge_witness :
    ∃ pe ∈ c7Router.definition.paths, ∃ me ∈ pickMethods pe.2,
      c7Op.path = pe.1 ∧ c7Op.method = me.1 ∧
      c7Op.parameters = me.2.parameters ++ pe.2.parameters ∧
      c7Op.security = me.2.security.getD (c7Router.definition.security.getD []) ∧
      (∀ n : String, (me.2.parameters.find? (fun p => p.name == n)).isSome = true →
        c7Op.parameters.find? (fun p => p.name == n) =
          me.2.parameters.find? (fun p => p.name == n)) :=
  claim7_descriptor_merge c7Router c7Op (by decide)

/-! ## Claim C8: shape and order of the flattened registry -/

theorem find?_isSome_eq {α : Type} (p : α → Bool) : ∀ l : List α, (l.find? p).isSome = l.any p
  | [] => rfl
  | x :: xs => by
    cases hx : p x <;> simp [List.find?_cons, hx, find?_isSome_eq p xs]

/-- Mapping a first-component function over the picked method entries is
filtering the fixed method list by declaredness. -/
theorem pickMethods_map_fst_dep {α : Type} (pi : PathItemObject) (G : String → α) :
    ∀ ms : List String,
      ((ms.filterMap fun m => (pi.methods.find? (fun e => e.1 == m)).map fun e => (m, e.2)).map
        (fun me => G me.1))
      = (ms.filter (fun m => (pi.methods.find? (fun e => e.1 == m)).isSome)).map G
  | [] => rfl
  | m :: ms => by
    cases hf : pi.methods.find? (fun e => e.1 == m) <;>
      simp [List.filterMap_cons, hf, List.filter_cons, pickMethods_map_fst_dep pi G ms]

theorem getOps_proj (doc : Document) :
    ∀ pes : List (String × PathItemObject),
      ((pes.flatMap fun pe => (pickMethods pe.2).map (descriptorOf doc pe)).map
        (fun d => (d.path, d.method)))
      = pes.flatMap fun pe =>
          (httpMethods.filter (fun m => pe.2.methods.any (fun e => e.1 == m))).map
            (fun m => (pe.1, m))
  | [] => rfl
  | pe :: pes => by
    rw [List.flatMap_cons, List.flatMap_cons, List.map_append, getOps_proj doc pes]
    congr 1
    rw [List.map_map]
    have hcomp : ((fun d : Operation => (d.path, d.method)) ∘ descriptorOf doc pe) =
        fun me => (pe.1, me.1) := rfl
    rw [hcomp]
    have := pickMethods_map_fst_dep pe.2 (fun m => ((pe.1 : String), m)) httpMethods
    rw [pickMethods] at *
    rw [this]
    congr 1
    apply List.filter_congr
    intro m _
    exact find?_isSome_eq _ _

/-- C8 (amended): the registry yields exactly one descriptor per declared
method per path; every (path, declared HTTP method) pair is represented;
and the entries are ordered by path in document order but, within one path,
by the fixed method order get, put, post, delete, options, head, patch,
trace — not by the order in which the document declares the methods. -/
theorem claim8_registry_shape (r : OpenAPIRouter) :
    ((getOperations r).map (fun d => (d.path, d.method)) =
      r.definition.paths.flatMap (fun pe =>
        (httpMethods.filter (fun m => pe.2.methods.any (fun e => e.1 == m))).map
          (fun m => (pe.1, m)))) ∧
    (∀ path pi m o, (path, pi) ∈ r.definition.paths → m ∈ httpMethods →
      (m, o) ∈ pi.methods →
      ∃ d ∈ getOperations r, d.path = path ∧ d.method = m) ∧
    ((r.definition.paths.map Prod.fst).Nodup →
      ∀ d1 ∈ getOperations r, ∀ d2 ∈ getOperations r,
        d1.path = d2.path → d1.method = d2.method → d1 = d2) := by
  refine ⟨getOps_proj r.definition r.definition.paths, ?_, ?_⟩
  · intro path pi m o hpe hm hmo
    have hsome : (pi.methods.find? (fun e => e.1 == m)).isSome = true := by
      rw [find?_isSome_eq, List.any_eq_true]
      exact ⟨(m, o), hmo, by simp⟩
    obtain ⟨e, he⟩ := Option.isSome_iff_exists.mp hsome
    have hmem : (m, e.2) ∈ pickMethods pi := by
      rw [pickMethods, List.mem_filterMap]
      exact ⟨m, hm, by rw [he]; rfl⟩
    refine ⟨descriptorOf r.definition (path, pi) (m, e.2), ?_, rfl, rfl⟩
    exact mem_getOperations.mpr ⟨(path, pi), hpe, (m, e.2), hmem, rfl⟩
  · intro hnd d1 h1 d2 h2 hp hm
    exact getOperations_unique hnd h1 h2 hp hm

/-- Document for the C8 counterexample: `post` declared before `get`. -/
def c8Doc : Document :=
  { paths := [("/a", { methods := [("post", { operationId := some "createA" }),
                                   ("get", { operationId := some "getA" })] })] }

/-- Counterexample for C8 as stated: the registry emits `get` before `post`
although the document declares `post` first, so the entries are not in
document iteration order. -/
theorem claim8_counterexample :
    (getOperations { definition := c8Doc }).map (fun d => d.method) = ["get", "post"] ∧
    c8Doc.paths.flatMap (fun pe => pe.2.methods.map Prod.fst) = ["post", "get"] ∧
    (["get", "post"] : List String) ≠ ["post", "get"] := by
  refine ⟨by decide, by decide, by decide⟩

/-- Witness for C8 (amended) at a concrete document. -/
theorem claim8_registry_shape_witness :
    ∃ d ∈ getOperations { definition := c8Doc }, d.path = "/a" ∧ d.method = "post" :=
  (claim8_registry_shape { definition := c8Doc }).2.1 "/a"
    { methods := [("post", { operationId := some "createA" }),
                  ("get", { operationId := some "getA" })] }
    "post" { operationId := some "createA" } (by decide) (by decide) (by decide)

/-! ## The query-string model (`qs.parse`, flat syntax) -/

/-- Lookup in a query object (first binding). -/
def lookupQ (m : QueryMap) (k : String) : Option QVal :=
  (m.find? (fun e => e.1 == k)).map (fun e => e.2)

/-- JS assignment `m[k] = v` for a key already present: update in place,
keeping the key's position. -/
def setQ (m : QueryMap) (k : String) (v : QVal) : QueryMap :=
  m.map (fun e => if e.1 == k then (k, v) else e)

/-- JS truthiness of a value stored in the parsed query (`undefined` and the
empty string are falsy; any array is truthy). -/
def truthy : QVal → Bool
  | .str s => !s.data.isEmpty
  | .arr _ => true
  | .undef => false

/-- How `qs` merges a value under an already-present key (repeated keys
collect into arrays, arrays concatenate). -/
def qsCombine : QVal → QVal → QVal
  | .str a, .str b => .arr [a, b]
  | .str a, .arr b => .arr (a :: b)
  | .arr a, .str b => .arr (a ++ [b])
  | .arr a, .arr b => .arr (a ++ b)
  | .undef, v => v
  | v, .undef => v

/-- Insert one decoded `key=value` pair into the accumulating query object. -/
def qsInsert (m : QueryMap) (k : String) (v : QVal) : QueryMap :=
  match lookupQ m k with
  | none => m ++ [(k, v)]
  | some old => setQ m k (qsCombine old v)

/-- Decode one raw `key=value` part (everything after the first `=` is the
value; a part without `=` has the empty value); with `comma` set, a value
containing a comma is split on the raw commas before decoding, as
`qs.parse(..., \x7b comma: true \x7d)` does. -/
def qsPair (comma : Bool) (part : List Char) : String × QVal :=
  let rawKey := part.takeWhile (fun c => !(c == '='))
  let rawVal : List Char :=
    if part.any (fun c => c == '=') then (part.dropWhile (fun c => !(c == '='))).tail else []
  let k : String := ⟨pctDecode rawKey⟩
  let v : QVal :=
    if comma && rawVal.any (fun c => c == ',') then
      .arr ((splitOnChar ',' rawVal).map (fun p => ⟨pctDecode p⟩))
    else .str ⟨pctDecode rawVal⟩
  (k, v)

/-- The model of `qs.parse` on a flat query string. -/
def parseQueryList (comma : Bool) (qstr : List Char) : QueryMap :=
  ((splitOnChar '&' qstr).filter (fun p => !p.isEmpty)).foldl
    (fun m part =>
      let kv := qsPair comma part
      qsInsert m kv.1 kv.2) []

/-- `req.path.split('?')[1]`: the segment of the path between the first and
second `?`, or `none` when the path has no `?`. -/
def getQueryString (p : String) : Option (List Char) :=
  if p.data.any (fun c => c == '?') then
    some (((p.data.dropWhile (fun c => !(c == '?'))).tail).takeWhile (fun c => !(c == '?')))
  else none

/-! ## The JSON model (`JSON.parse`) -/

/-- JSON whitespace. -/
def jsonWs (c : Char) : Bool := c == ' ' || c == '\t' || c == '\n' || c == '\r'

/-- Skip JSON whitespace. -/
def skipWs (cs : List Char) : List Char := cs.dropWhile jsonWs

/-- Parse the body of a JSON string after the opening quote (fuelled). -/
def parseJsonStr : Nat → List Char → Option (String × List Char)
  | 0, _ => none
  | _ + 1, [] => none
  | fuel + 1, c :: rest =>
    if c == '"' then some ("", rest)
    else if c == '\\' then
      match rest with
      | [] => none
      | e :: r1 =>
        let dec : Option (Char × List Char) :=
          if e == '"' then some ('"', r1)
          else if e == '\\' then some ('\\', r1)
          else if e == '/' then some ('/', r1)
          else if e == 'b' then some ('\x08', r1)
          else if e == 'f' then some ('\x0c', r1)
          else if e == 'n' then some ('\n', r1)
          else if e == 'r' then some ('\r', r1)
          else if e == 't' then some ('\t', r1)
          else if e == 'u' then
            match r1 with
            | a :: b :: c2 :: d :: r2 =>
              match hexVal a, hexVal b, hexVal c2, hexVal d with
              | some ha, some hb, some hc, some hd =>
                some (Char.ofNat (4096 * ha + 256 * hb + 16 * hc + hd), r2)
              | _, _, _, _ => none
            | _ => none
          else none
        match dec with
        | some (ch, r2) => (parseJsonStr fuel r2).map (fun sr => (⟨ch :: sr.1.data⟩, sr.2))
        | none => none
    else if c.toNat < 32 then none
    else (parseJsonStr fuel rest).map (fun sr => (⟨c :: sr.1.data⟩, sr.2))

/-- Parse a JSON number lexeme (sign, integer part without leading zeros,
optional fraction, optional exponent); the validated lexeme is kept. -/
def parseJsonNum (cs : List Char) : Option (Json × List Char) :=
  let sp := match cs with | '-' :: t => (['-'], t) | _ => (([] : List Char), cs)
  match sp.2 with
  | [] => none
  | c :: t =>
    if !c.isDigit then none
    else
      let ip : List Char × List Char :=
        if c == '0' then (['0'], t)
        else (c :: t.takeWhile Char.isDigit, t.dropWhile Char.isDigit)
      let fp : List Char × List Char :=
        match ip.2 with
        | '.' :: u =>
          let ds := u.takeWhile Char.isDigit
          if ds.isEmpty then ([], ip.2) else ('.' :: ds, u.dropWhile Char.isDigit)
        | _ => ([], ip.2)
      let ep : List Char × List Char :=
        match fp.2 with
        | e :: u =>
          if e == 'e' || e == 'E' then
            let sg := match u with
              | s :: v => if s == '+' || s == '-' then ([s], v) else (([] : List Char), u)
              | [] => ([], u)
            let ds := sg.2.takeWhile Char.isDigit
            if ds.isEmpty then ([], fp.2) else (e :: (sg.1 ++ ds), sg.2.dropWhile Char.isDigit)
          else ([], fp.2)
        | [] => ([], fp.2)
      some (Json.num ⟨sp.1 ++ ip.1 ++ fp.1 ++ ep.1⟩, ep.2)

mutual

/-- Parse one JSON value (fuelled recursive descent). -/
def parseJsonVal : Nat → List Char → Option (Json × List Char)
  | 0, _ => none
  | fuel + 1, cs =>
    match skipWs cs with
    | 'n' :: 'u' :: 'l' :: 'l' :: rest => some (Json.null, rest)
    | 't' :: 'r' :: 'u' :: 'e' :: rest => some (Json.bool true, rest)
    | 'f' :: 'a' :: 'l' :: 's' :: 'e' :: rest => some (Json.bool false, rest)
    | '"' :: rest => (parseJsonStr (fuel + 1) rest).map (fun sr => (Json.str sr.1, sr.2))
    | '[' :: rest =>
      (match skipWs rest with
       | ']' :: r2 => some (Json.arr [], r2)
       | _ => parseJsonArr fuel rest [])
    | '{' :: rest =>
      (match skipWs rest with
       | '}' :: r2 => some (Json.obj [], r2)
       | _ => parseJsonObj fuel rest [])
    | c :: rest =>
      if c == '-' || c.isDigit then parseJsonNum (c :: rest) else none
    | [] => none

/-- Parse the elements of a JSON array after `[`. -/
def parseJsonArr : Nat → List Char → List Json → Option (Json × List Char)
  | 0, _, _ => none
  | fuel + 1, cs, acc =>
    match parseJsonVal fuel cs with
    | none => none
    | some (v, r) =>
      match skipWs r with
      | ',' :: r2 => parseJsonArr fuel r2 (acc ++ [v])
      | ']' :: r2 => some (Json.arr (acc ++ [v]), r2)
      | _ => none

/-- Parse the members of a JSON object after `\x7b`. -/
def parseJsonObj : Nat → List Char → List (String × Json) → Option (Json × List Char)
  | 0, _, _ => none
  | fuel + 1, cs, acc =>
    match skipWs cs with
    | '"' :: r =>
      (match parseJsonStr (fuel + 1) r with
       | none => none
       | some (k, r1) =>
         match skipWs r1 with
         | ':' :: r2 =>
           (match parseJsonVal fuel r2 with
            | none => none
            | some (v, r3) =>
              match skipWs r3 with
              | ',' :: r4 => parseJsonObj fuel r4 (acc ++ [(k, v)])
              | '}' :: r4 => some (Json.obj (acc ++ [(k, v)]), r4)
              | _ => none)
         | _ => none)
    | _ => none

end

/-- The model of `JSON.parse`: one JSON value, surrounded only by
whitespace; anything else fails. -/
def jsonParse (s : String) : Option Json :=
  match parseJsonVal (2 * s.data.length + 2) s.data with
  | some (v, rest) => if (skipWs rest).isEmpty then some v else none
  | none => none

/-! ## Headers, cookies, and path parameters -/

/-- `_.mapKeys(headers, lower-case)`: rebuild the map with lower-cased keys,
last write winning on collision, first-encounter position kept. -/
def lowerHeaders (hs : List (String × HeaderVal)) : List (String × HeaderVal) :=
  hs.foldl
    (fun acc e =>
      let lk : String := ⟨jsToLower e.1.data⟩
      if acc.any (fun e2 => e2.1 == lk) then
        acc.map (fun e2 => if e2.1 == lk then (lk, e.2) else e2)
      else acc ++ [(lk, e.2)])
    []

/-- Header lookup. -/
def lookupH (hs : List (String × HeaderVal)) (k : String) : Option HeaderVal :=
  (hs.find? (fun e => e.1 == k)).map (fun e => e.2)

/-- Join strings with `"; "`. -/
def joinSemi : List String → String
  | [] => ""
  | [s] => s
  | s :: rest => s ++ "; " ++ joinSemi rest

/-- `_.flatten([headers['cookie']]).join('; ')`: a missing header joins to
the empty string, an array of values is joined with `"; "`. -/
def cookieHeaderString : Option HeaderVal → String
  | none => ""
  | some (.str s) => s
  | some (.arr a) => joinSemi a

/-- Percent-decoding without the `+`-to-space rule (`decodeURIComponent`,
as the cookie decoder uses). -/
def pctDecodeNoPlus : List Char → List Char
  | '%' :: a :: b :: rest =>
    match hexVal a, hexVal b with
    | some ha, some hb => Char.ofNat (16 * ha + hb) :: pctDecodeNoPlus rest
    | _, _ => '%' :: pctDecodeNoPlus (a :: b :: rest)
  | c :: rest => c :: pctDecodeNoPlus rest
  | [] => []

/-- Strip one pair of surrounding double quotes. -/
def stripQuotes (cs : List Char) : List Char :=
  match cs with
  | '"' :: rest => if rest.getLast? == some '"' then rest.dropLast else cs
  | _ => cs

/-- The model of `cookie.parse`: split on `;`, keep `name=value` parts,
trim, unquote and percent-decode the value; the first occurrence of a name
wins. -/
def parseCookies (s : String) : List (String × String) :=
  (splitOnChar ';' s.data).foldl
    (fun acc part =>
      if part.any (fun c => c == '=') then
        let k : String := ⟨jsTrim (part.takeWhile (fun c => !(c == '=')))⟩
        let v : String :=
          ⟨pctDecodeNoPlus (stripQuotes (jsTrim ((part.dropWhile (fun c => !(c == '='))).tail)))⟩
        if acc.any (fun e => e.1 == k) then acc else acc ++ [(k, v)]
      else acc)
    []

/-- A template token carrying its placeholder name, for path-parameter
extraction (the `bath` collaborator). -/
inductive NTok where
  | lit (c : Char)
  | wild (name : String)
deriving DecidableEq, Repr

/-- Tokenizer step with placeholder names (same placeholder syntax as the
matching tokenizer). -/
def ntokStep : List NTok × Option (List Char) → Char → List NTok × Option (List Char)
  | (acc, none), c => if c == '{' then (acc, some []) else (NTok.lit c :: acc, none)
  | (acc, some buf), c =>
    if c == '}' then (NTok.wild ⟨buf.reverse⟩ :: acc, none) else (acc, some (c :: buf))

/-- Tokenize a template keeping placeholder names. -/
def tokenizeNamed (cs : List Char) : List NTok :=
  match cs.foldl ntokStep ([], none) with
  | (acc, none) => acc.reverse
  | (acc, some buf) => (buf.map NTok.lit ++ NTok.lit '{' :: acc).reverse

/-- Anchored capture of path parameters: each placeholder captures one or
more non-slash characters, greedily with backtracking (the
`([^/]+)` capture groups of `bath`); `none` when the path does not match. -/
def capToks : List NTok → List Char → Option (List (String × String))
  | [], cs => if cs.isEmpty then some [] else none
  | NTok.lit _ :: _, [] => none
  | NTok.lit c :: ts, d :: cs => if c == d then capToks ts cs else none
  | NTok.wild _ :: _, [] => none
  | NTok.wild n :: ts, c :: cs =>
    if c == '/' then none
    else
      match capToks (NTok.wild n :: ts) cs with
      | some m =>
        match m with
        | e :: mrest => some ((e.1, ⟨c :: e.2.data⟩) :: mrest)
        | [] => none
      | none => (capToks ts cs).map (fun m => (n, ⟨[c]⟩) :: m)

/-! ## parseRequest -/

/-- The result of `parseRequest`. -/
structure ParsedRequest where
  method : String
  path : String
  headers : List (String × HeaderVal)
  params : List (String × String)
  cookies : List (String × String)
  query : QueryMap
  requestBody : Option BodyIn
  body : Option BodyIn

/-- Is the raw request's query a structured object (JS `typeof ... ===
'object'`)? -/
def queryIsObj (req : Request) : Bool :=
  match req.query with
  | some (QueryInput.obj _) => true
  | _ => false

/-- First declared query parameter of the given name
(`_.find(parameters, \x7b name, in: 'query' \x7d)`). -/
def findQueryParam (ps : List ParameterObject) (n : String) : Option ParameterObject :=
  ps.find? (fun p => p.name == n && p.paramIn == "query")

/-- The delimiter-to-comma rewrite of the raw query string: spaces and
`%20` for `spaceDelimited`, pipes and `%7C` for `pipeDelimited` (in the
source's order: the character replacement, then the escape replacement). -/
def styleRewrite (style : Option String) (qs : List Char) : List Char :=
  if style == some "spaceDelimited" then
    replaceSub3 '%' '2' '0' ',' (qs.map (fun c => if c == ' ' then ',' else c))
  else if style == some "pipeDelimited" then
    replaceSub3 '%' '7' 'C' ',' (qs.map (fun c => if c == '|' then ',' else c))
  else qs

/-- One iteration of the first re-decode pass, for the query key `k`: if the
current value is truthy and `k` is declared as a non-exploded query
parameter, re-parse the rewritten raw query string with comma splitting and
overwrite `k`'s value with whatever that parse holds for `k` (possibly
`undefined`). -/
def pass1Step (op : Operation) (rawQs : List Char) (q : QueryMap) (k : String) : QueryMap :=
  match lookupQ q k with
  | none => q
  | some v =>
    if truthy v then
      match findQueryParam op.parameters k with
      | some p =>
        if p.explode == some false then
          let commaParsed := parseQueryList true (styleRewrite p.style rawQs)
          setQ q k ((lookupQ commaParsed k).getD .undef)
        else q
      | none => q
    else q

/-- The first re-decode pass: iterate over the parsed query's keys
(`for (const queryParam in query)`). -/
def pass1 (op : Operation) (rawQs : List Char) (q0 : QueryMap) : QueryMap :=
  (q0.map (fun e => e.1)).foldl (pass1Step op rawQs) q0

/-- The split delimiter chosen by a parameter's style. -/
def styleDelim : Option String → Char
  | some s => if s == "spaceDelimited" then ' ' else if s == "pipeDelimited" then '|' else ','
  | none => ','

/-- One iteration of the second pass: split the parameter's value by its
style's delimiter when it is still a plain string. -/
def pass2Step (q2 : QueryMap) (p : ParameterObject) : QueryMap :=
  match lookupQ q2 p.name with
  | some (QVal.str s) =>
    setQ q2 p.name (QVal.arr ((splitOnChar (styleDelim p.style) s.data).map
      (fun c => (⟨c⟩ : String))))
  | _ => q2

/-- The second pass: every declared non-exploded query parameter whose value
is still a plain string is split by its style's delimiter into an array.
This pass is applied whenever an operation is given, also to an
object-supplied query. -/
def pass2 (op : Operation) (q : QueryMap) : QueryMap :=
  (op.parameters.filter (fun p => p.explode == some false && p.paramIn == "query")).foldl
    pass2Step q

/-- `parseRequest`: decode body, headers, cookies, query and (when an
operation is given) path parameters and non-exploded array query
parameters. -/
def parseRequest (r : OpenAPIRouter) (req : Request) (operation : Option Operation) :
    ParsedRequest :=
  let requestBody : Option BodyIn :=
    match req.body with
    | some (BodyIn.raw s) =>
      (match jsonParse s with
       | some j => some (BodyIn.structured j)
       | none => some (BodyIn.raw s))
    | b => b
  let headers := lowerHeaders req.headers
  let cookies := parseCookies (cookieHeaderString (lookupH headers "cookie"))
  let qstr := getQueryString req.path
  let query0 : QueryMap :=
    match req.query with
    | some (QueryInput.obj m) => m
    | _ => parseQueryList false (qstr.getD [])
  let nreq := normalizeRequest req
  match operation with
  | none =>
    { method := nreq.method, path := nreq.path, headers, params := [], cookies,
      query := query0, requestBody, body := req.body }
  | some op =>
    let np := normalizePath r nreq.path
    let params := (capToks (tokenizeNamed op.path.data) np.data).getD []
    let q1 : QueryMap :=
      match qstr with
      | some l => if !queryIsObj req && !l.isEmpty then pass1 op l query0 else query0
      | none => query0
    { method := nreq.method, path := nreq.path, headers, params, cookies,
      query := pass2 op q1, requestBody, body := req.body }

/-- The contents of the caller-supplied `query` object after a
`parseRequest` call.  When the raw request carries a structured query and an
operation is given, the source aliases that object (`query = req.query`) and
the second pass assigns into it (`query[p.name] = ...`), so the caller's
object ends up equal to the pass-2 result; in every other case the caller's
query is untouched (the parsed query is a freshly built object). -/
def callerQueryAfter (req : Request) (operation : Option Operation) : Option QueryInput :=
  match req.query, operation with
  | some (QueryInput.obj m), some op => some (QueryInput.obj (pass2 op m))
  | q, _ => q

/-! ## Claim C6: best-effort JSON body decoding -/

/-- The `requestBody` field of `parseRequest`, isolated. -/
theorem parseRequest_requestBody (r : OpenAPIRouter) (req : Request) (op? : Option Operation) :
    (parseRequest r req op?).requestBody =
      match req.body with
      | some (BodyIn.raw s) =>
        (match jsonParse s with
         | some j => some (BodyIn.structured j)
         | none => some (BodyIn.raw s))
      | b => b := by
  cases op? <;> rfl

/-- C6: for every request, a present body that is not already structured is
JSON-decoded; on decode failure the original raw value is kept and
`parseRequest` still returns normally (it is a total function — no error is
raised); a structured or absent body passes through unchanged. -/
theorem claim6_body_json (r : OpenAPIRouter) (req : Request) (op? : Option Operation) :
    (∀ s, req.body = some (BodyIn.raw s) →
      (parseRequest r req op?).requestBody =
        (match jsonParse s with
         | some j => some (BodyIn.structured j)
         | none => some (BodyIn.raw s))) ∧
    (∀ s, req.body = some (BodyIn.raw s) → jsonParse s = none →
      (parseRequest r req op?).requestBody = some (BodyIn.raw s)) ∧
    (∀ j, req.body = some (BodyIn.structured j) →
      (parseRequest r req op?).requestBody = some (BodyIn.structured j)) ∧
    (req.body = none → (parseRequest r req op?).requestBody = none) := by
  refine ⟨?_, ?_, ?_, ?_⟩
  · intro s hs
    rw [parseRequest_requestBody, hs]
  · intro s hs hj
    rw [parseRequest_requestBody, hs]
    show (match jsonParse s with
          | some j => some (BodyIn.structured j)
          | none => some (BodyIn.raw s)) = some (BodyIn.raw s)
    rw [hj]
  · intro j hj
    rw [parseRequest_requestBody, hj]
  · intro h
    rw [parseRequest_requestBody, h]

/-- A trivial router for the parsing witnesses. -/
def emptyRouter : OpenAPIRouter := { definition := {} }

/-- Request whose body is the JSON text of the claim. -/
def c6ReqJson : Request :=
  { method := "POST", path := "/x", body := some (BodyIn.raw "\x7b\"x\":1\x7d") }

/-- Request whose body is not JSON. -/
def c6ReqRaw : Request :=
  { method := "POST", path := "/x", body := some (BodyIn.raw "not json") }

/-- Witness for C6: `'\x7b"x":1\x7d'` decodes to the object, `'not json'`
is kept verbatim with no error. -/
theorem claim6_body_json_witness :
    (parseRequest emptyRouter c6ReqJson none).requestBody =
      some (BodyIn.structured (Json.obj [("x", Json.num "1")])) ∧
    (parseRequest emptyRouter c6ReqRaw none).requestBody =
      some (BodyIn.raw "not json") := by
  constructor
  · rw [(claim6_body_json emptyRouter c6ReqJson none).1 _ rfl]
    exact rfl
  · exact (claim6_body_json emptyRouter c6ReqRaw none).2.1 _ rfl rfl

/-! ## Claim C4: non-exploded array query parameters -/

/-- A parsed-query value that is a string or an array (never `undefined`). -/
def strOrArr (v : QVal) : Prop := (∃ s, v = QVal.str s) ∨ (∃ a, v = QVal.arr a)

theorem lookupQ_cons_pos {e : String × QVal} {m : QueryMap} {k : String}
    (he : (e.1 == k) = true) : lookupQ (e :: m) k = some e.2 := by
  rw [lookupQ, List.find?_cons_of_pos m he]
  rfl

theorem lookupQ_cons_neg {e : String × QVal} {m : QueryMap} {k : String}
    (he : (e.1 == k) = false) : lookupQ (e :: m) k = lookupQ m k := by
  rw [lookupQ, List.find?_cons_of_neg m (by rw [he]; exact Bool.false_ne_true)]
  rfl

theorem setQ_cons_pos {e : String × QVal} {m : QueryMap} {k : String} {v : QVal}
    (he : (e.1 == k) = true) : setQ (e :: m) k v = (k, v) :: setQ m k v := by
  rw [setQ, List.map_cons, if_pos he]
  rfl

theorem setQ_cons_neg {e : String × QVal} {m : QueryMap} {k : String} {v : QVal}
    (he : (e.1 == k) = false) : setQ (e :: m) k v = e :: setQ m k v := by
  rw [setQ, List.map_cons, if_neg (by rw [he]; exact Bool.false_ne_true)]
  rfl

theorem lookupQ_setQ_self {m : QueryMap} {k : String} (v : QVal) :
    (lookupQ m k).isSome = true → lookupQ (setQ m k v) k = some v := by
  induction m with
  | nil => intro h; exact absurd h (by simp [lookupQ])
  | cons e m ih =>
    intro h
    cases he : e.1 == k
    · rw [lookupQ_cons_neg he] at h
      rw [setQ_cons_neg he, lookupQ_cons_neg he]
      exact ih h
    · rw [setQ_cons_pos he]
      exact lookupQ_cons_pos (by simp)

theorem lookupQ_setQ_ne {m : QueryMap} {k k' : String} (v : QVal) (h : ¬(k' = k)) :
    lookupQ (setQ m k v) k' = lookupQ m k' := by
  induction m with
  | nil => rfl
  | cons e m ih =>
    cases he : e.1 == k
    · rw [setQ_cons_neg he]
      cases he' : e.1 == k'
      · rw [lookupQ_cons_neg he', lookupQ_cons_neg he', ih]
      · rw [lookupQ_cons_pos he', lookupQ_cons_pos he']
    · rw [setQ_cons_pos he]
      have hk' : (k == k') = false := by
        cases hkk : k == k'
        · rfl
        · exact absurd (eq_of_beq hkk).symm h
      have hek : (e.1 == k') = false := by
        cases hek2 : e.1 == k'
        · rfl
        · exact ((h ((eq_of_beq he).symm.trans (eq_of_beq hek2)).symm).elim)
      rw [lookupQ_cons_neg (e := (k, v)) hk', lookupQ_cons_neg hek, ih]

/-- All values of a query object are strings or arrays. -/
def queryOk (m : QueryMap) : Prop := ∀ e ∈ m, strOrArr e.2

theorem qsPair_val (comma : Bool) (part : List Char) : strOrArr (qsPair comma part).2 := by
  rw [qsPair]
  by_cases h : (comma && (if part.any (fun c => c == '=')
      then (part.dropWhile (fun c => !(c == '='))).tail else []).any (fun c => c == ',')) = true
  · simp only [h, if_true]
    exact Or.inr ⟨_, rfl⟩
  · simp only [Bool.not_eq_true] at h
    simp only [h, if_false]
    exact Or.inl ⟨_, rfl⟩

theorem qsCombine_ok {a b : QVal} (_ : strOrArr a) (_ : strOrArr b) :
    strOrArr (qsCombine a b) := by
  cases a <;> cases b <;> first
    | exact Or.inl ⟨_, rfl⟩
    | exact Or.inr ⟨_, rfl⟩
    | assumption

theorem setQ_ok {m : QueryMap} {k : String} {v : QVal}
    (hm : queryOk m) (hv : strOrArr v) : queryOk (setQ m k v) := by
  intro e he
  rw [setQ, List.mem_map] at he
  obtain ⟨e0, he0, heq⟩ := he
  by_cases h : (e0.1 == k) = true
  · rw [if_pos h] at heq
    rw [← heq]
    exact hv
  · rw [if_neg h] at heq
    rw [← heq]
    exact hm e0 he0

theorem lookupQ_mem {m : QueryMap} {k : String} {v : QVal}
    (h : lookupQ m k = some v) : ∃ e ∈ m, e.2 = v := by
  rw [lookupQ, Option.map_eq_some'] at h
  obtain ⟨e, he, hv⟩ := h
  exact ⟨e, List.mem_of_find?_eq_some he, hv⟩

theorem qsInsert_ok {m : QueryMap} {k : String} {v : QVal}
    (hm : queryOk m) (hv : strOrArr v) : queryOk (qsInsert m k v) := by
  rw [qsInsert]
  cases hl : lookupQ m k
  · intro e he
    rcases List.mem_append.mp he with h1 | h2
    · exact hm e h1
    · rw [List.mem_singleton] at h2
      rw [h2]
      exact hv
  · rename_i old
    obtain ⟨e0, _, he0⟩ := lookupQ_mem hl
    apply setQ_ok hm
    apply qsCombine_ok _ hv
    rw [← he0]
    exact hm e0 (by assumption)

theorem parseQueryList_ok (comma : Bool) (qstr : List Char) :
    queryOk (parseQueryList comma qstr) := by
  rw [parseQueryList]
  generalize ((splitOnChar '&' qstr).filter (fun p => !p.isEmpty)) = parts
  have h : ∀ (ps : List (List Char)) (m : QueryMap), queryOk m →
      queryOk (ps.foldl (fun m part => let kv := qsPair comma part; qsInsert m kv.1 kv.2) m) := by
    intro ps
    induction ps with
    | nil => intro m hm; exact hm
    | cons part ps ih =>
      intro m hm
      exact ih _ (qsInsert_ok hm (qsPair_val comma part))
  exact h parts [] (by intro e he; exact absurd he (List.not_mem_nil e))

theorem parseQueryList_lookup_ok {comma : Bool} {qstr : List Char} {k : String} {v : QVal}
    (h : lookupQ (parseQueryList comma qstr) k = some v) : strOrArr v := by
  obtain ⟨e, he, hv⟩ := lookupQ_mem h
  rw [← hv]
  exact parseQueryList_ok comma qstr e he

/-- Keys of a query object, with the JS-object uniqueness property. -/
def keysNodup (m : QueryMap) : Prop := (m.map (fun e => e.1)).Nodup

theorem setQ_keys (k : String) (v : QVal) :
    ∀ m : QueryMap, (setQ m k v).map (fun e => e.1) = m.map (fun e => e.1)
  | [] => rfl
  | e :: m => by
    cases he : e.1 == k
    · rw [setQ_cons_neg he, List.map_cons, List.map_cons, setQ_keys k v m]
    · rw [setQ_cons_pos he, List.map_cons, List.map_cons, setQ_keys k v m]
      rw [eq_of_beq he]

theorem lookupQ_none_notmem {m : QueryMap} {k : String} (h : lookupQ m k = none) :
    ¬(k ∈ m.map (fun e => e.1)) := by
  induction m with
  | nil => intro hk; exact absurd hk (List.not_mem_nil k)
  | cons e m ih =>
    cases he : e.1 == k
    · rw [lookupQ_cons_neg he] at h
      rw [List.map_cons]
      intro hk
      rcases List.mem_cons.mp hk with rfl | hk2
      · exact absurd (by simp : (e.1 == e.1) = true) (by rw [he]; exact Bool.false_ne_true)
      · exact ih h hk2
    · rw [lookupQ_cons_pos he] at h
      exact Option.noConfusion h

theorem qsInsert_keysNodup {m : QueryMap} {k : String} {v : QVal}
    (h : keysNodup m) : keysNodup (qsInsert m k v) := by
  rw [qsInsert]
  cases hl : lookupQ m k
  · rw [keysNodup, List.map_append]
    rw [List.nodup_append]
    refine ⟨h, List.nodup_singleton k, ?_⟩
    intro a ha hb
    rw [show ((([(k, v)] : QueryMap).map (fun e => e.1)) = [k]) from rfl] at hb
    rw [List.mem_singleton] at hb
    rw [hb] at ha
    exact lookupQ_none_notmem hl ha
  · rw [keysNodup, setQ_keys]
    exact h

theorem parseQueryList_keysNodup (comma : Bool) (qstr : List Char) :
    keysNodup (parseQueryList comma qstr) := by
  rw [parseQueryList]
  generalize ((splitOnChar '&' qstr).filter (fun p => !p.isEmpty)) = parts
  have h : ∀ (ps : List (List Char)) (m : QueryMap), keysNodup m →
      keysNodup (ps.foldl (fun m part => let kv := qsPair comma part; qsInsert m kv.1 kv.2) m) := by
    intro ps
    induction ps with
    | nil => intro m hm; exact hm
    | cons part ps ih => intro m hm; exact ih _ (qsInsert_keysNodup hm)
  exact h parts [] List.Pairwise.nil

/-- What the first pass does to the value stored under a single key. -/
def pass1At (op : Operation) (rawQs : List Char) (k : String) (v : QVal) : QVal :=
  if truthy v then
    match findQueryParam op.parameters k with
    | some p =>
      if p.explode == some false then
        (lookupQ (parseQueryList true (styleRewrite p.style rawQs)) k).getD QVal.undef
      else v
    | none => v
  else v

theorem pass1Step_lookup_self (op : Operation) (rawQs : List Char) (q : QueryMap) (k : String) :
    lookupQ (pass1Step op rawQs q k) k = (lookupQ q k).map (pass1At op rawQs k) := by
  cases hl : lookupQ q k
  · simp only [pass1Step, hl, Option.map_none']
  · rename_i v
    cases ht : truthy v
    · simp only [pass1Step, pass1At, hl, ht, Option.map_some', Bool.false_eq_true, if_false]
    · cases hf : findQueryParam op.parameters k
      · simp only [pass1Step, pass1At, hl, ht, hf, Option.map_some', if_true]
      · rename_i p
        cases he : p.explode == some false
        · simp only [pass1Step, pass1At, hl, ht, hf, he, Option.map_some', if_true,
            Bool.false_eq_true, if_false]
        · simp only [pass1Step, pass1At, hl, ht, hf, he, Option.map_some', if_true]
          exact lookupQ_setQ_self _ (by rw [hl]; rfl)

theorem pass1Step_lookup_ne (op : Operation) (rawQs : List Char) (q : QueryMap)
    (k k' : String) (h : ¬(k' = k)) :
    lookupQ (pass1Step op rawQs q k) k' = lookupQ q k' := by
  cases hl : lookupQ q k
  · simp only [pass1Step, hl]
  · rename_i v
    cases ht : truthy v
    · simp only [pass1Step, hl, ht, Bool.false_eq_true, if_false]
    · cases hf : findQueryParam op.parameters k
      · simp only [pass1Step, hl, ht, hf, if_true]
      · rename_i p
        cases he : p.explode == some false
        · simp only [pass1Step, hl, ht, hf, he, if_true, Bool.false_eq_true, if_false]
        · simp only [pass1Step, hl, ht, hf, he, if_true]
          exact lookupQ_setQ_ne _ h

theorem pass1_fold_notmem (op : Operation) (rawQs : List Char) :
    ∀ (ks : List String) (q : QueryMap) (k : String), ¬(k ∈ ks) →
      lookupQ (ks.foldl (pass1Step op rawQs) q) k = lookupQ q k
  | [], _, _, _ => rfl
  | k0 :: ks, q, k, h => by
    rw [List.foldl_cons]
    have hne : ¬(k = k0) := fun he => h (he ▸ List.mem_cons_self k0 ks)
    rw [pass1_fold_notmem op rawQs ks _ k (fun hm => h (List.mem_cons_of_mem k0 hm))]
    exact pass1Step_lookup_ne op rawQs q k0 k hne

theorem pass1_fold_mem (op : Operation) (rawQs : List Char) :
    ∀ (ks : List String) (q : QueryMap) (k : String), k ∈ ks → ks.Nodup →
      lookupQ (ks.foldl (pass1Step op rawQs) q) k = (lookupQ q k).map (pass1At op rawQs k)
  | [], _, k, h, _ => absurd h (List.not_mem_nil k)
  | k0 :: ks, q, k, h, hnd => by
    rw [List.foldl_cons]
    rw [List.nodup_cons] at hnd
    rcases List.mem_cons.mp h with rfl | hmem
    · rw [pass1_fold_notmem op rawQs ks _ k hnd.1]
      exact pass1Step_lookup_self op rawQs q k
    · by_cases heq : k = k0
      · rw [heq] at hmem
        exact absurd hmem hnd.1
      · rw [pass1_fold_mem op rawQs ks _ k hmem hnd.2]
        rw [pass1Step_lookup_ne op rawQs q k0 k heq]

/-- The first pass, observed at a key of the parsed query. -/
theorem pass1_lookup (op : Operation) (rawQs : List Char) (q0 : QueryMap) (k : String)
    (hnd : keysNodup q0) (hk : (lookupQ q0 k).isSome = true) :
    lookupQ (pass1 op rawQs q0) k = (lookupQ q0 k).map (pass1At op rawQs k) := by
  rw [pass1]
  apply pass1_fold_mem op rawQs _ q0 k _ hnd
  obtain ⟨v, hv⟩ := Option.isSome_iff_exists.mp hk
  rw [lookupQ, Option.map_eq_some'] at hv
  obtain ⟨e, he, _⟩ := hv
  have h0 := List.find?_some he
  have h1 : e.1 = k := eq_of_beq h0
  have h2 : e ∈ q0 := List.mem_of_find?_eq_some he
  rw [← h1]
  exact List.mem_map_of_mem (fun e => e.1) h2

theorem pass2Step_lookup_ne (q : QueryMap) (p : ParameterObject) (k : String)
    (h : ¬(k = p.name)) : lookupQ (pass2Step q p) k = lookupQ q k := by
  cases hl : lookupQ q p.name
  · simp only [pass2Step, hl]
  · rename_i v
    cases v with
    | str s =>
      simp only [pass2Step, hl]
      exact lookupQ_setQ_ne _ h
    | arr a => simp only [pass2Step, hl]
    | undef => simp only [pass2Step, hl]

theorem pass2Step_arr (q : QueryMap) (p : ParameterObject) (k : String) (a : List String)
    (h : lookupQ q k = some (QVal.arr a)) :
    lookupQ (pass2Step q p) k = some (QVal.arr a) := by
  by_cases hk : k = p.name
  · have hl : lookupQ q p.name = some (QVal.arr a) := hk ▸ h
    simp only [pass2Step, hl]
    exact h
  · rw [pass2Step_lookup_ne q p k hk]
    exact h

theorem pass2_fold_arr :
    ∀ (ps : List ParameterObject) (q : QueryMap) (k : String) (a : List String),
      lookupQ q k = some (QVal.arr a) →
      lookupQ (ps.foldl pass2Step q) k = some (QVal.arr a)
  | [], _, _, _, h => h
  | p :: ps, q, k, a, h => by
    rw [List.foldl_cons]
    exact pass2_fold_arr ps _ k a (pass2Step_arr q p k a h)

theorem pass2_fold_mem :
    ∀ (ps : List ParameterObject) (q : QueryMap) (k : String) (v : QVal),
      (∃ p ∈ ps, p.name = k) → lookupQ q k = some v → strOrArr v →
      ∃ a, lookupQ (ps.foldl pass2Step q) k = some (QVal.arr a)
  | [], _, k, _, hex, _, _ => by
    obtain ⟨p, hp, _⟩ := hex
    exact absurd hp (List.not_mem_nil p)
  | p :: ps, q, k, v, hex, hv, hsa => by
    rw [List.foldl_cons]
    by_cases hpk : p.name = k
    · rcases hsa with ⟨s, rfl⟩ | ⟨a, rfl⟩
      · have hl : lookupQ q p.name = some (QVal.str s) := hpk ▸ hv
        have hset : lookupQ (pass2Step q p) k
            = some (QVal.arr ((splitOnChar (styleDelim p.style) s.data).map
              (fun c => (⟨c⟩ : String)))) := by
          simp only [pass2Step, hl]
          rw [← hpk]
          exact lookupQ_setQ_self _ (by rw [hl]; rfl)
        exact ⟨_, pass2_fold_arr ps _ k _ hset⟩
      · exact ⟨a, pass2_fold_arr ps _ k a (pass2Step_arr q p k a hv)⟩
    · obtain ⟨p', hp', hp'k⟩ := hex
      have hp'mem : p' ∈ ps := by
        rcases List.mem_cons.mp hp' with rfl | hm
        · exact absurd hp'k hpk
        · exact hm
      have hne : ¬(k = p.name) := fun he => hpk he.symm
      exact pass2_fold_mem ps _ k v ⟨p', hp'mem, hp'k⟩
        (by rw [pass2Step_lookup_ne q p k hne]; exact hv) hsa

/-- The second pass turns the value of any declared non-exploded query
parameter that is present as a string or array into an array. -/
theorem pass2_lookup_arr (op : Operation) (q : QueryMap) (k : String) (v : QVal)
    (hk : ∃ p ∈ op.parameters, p.explode = some false ∧ p.paramIn = "query" ∧ p.name = k)
    (hv : lookupQ q k = some v) (hsa : strOrArr v) :
    ∃ a, lookupQ (pass2 op q) k = some (QVal.arr a) := by
  rw [pass2]
  obtain ⟨p, hp, hexp, hin, hname⟩ := hk
  apply pass2_fold_mem _ q k v _ hv hsa
  refine ⟨p, ?_, hname⟩
  rw [List.mem_filter]
  refine ⟨hp, ?_⟩
  rw [hexp, hin]
  rfl

/-- The query produced by `parseRequest` when the raw query is not an
object: the path's query string is decoded, pass 1 is applied when the
query string is non-empty, pass 2 always. -/
theorem parseRequest_query_str (r : OpenAPIRouter) (req : Request) (op : Operation)
    (qs : List Char)
    (hq : queryIsObj req = false)
    (hqs : getQueryString req.path = some qs) :
    (parseRequest r req (some op)).query =
      pass2 op (if !qs.isEmpty then pass1 op qs (parseQueryList false qs)
                else parseQueryList false qs) := by
  cases hv : req.query with
  | none =>
    simp only [parseRequest, hv, hqs, queryIsObj, Option.getD_some, Bool.not_false,
      Bool.true_and]
  | some qi =>
    cases qi with
    | obj m =>
      rw [queryIsObj, hv] at hq
      exact Bool.noConfusion hq
    | str s =>
      simp only [parseRequest, hv, hqs, queryIsObj, Option.getD_some, Bool.not_false,
        Bool.true_and]

/-- C4 (amended): with an operation given and the raw query supplied as a
string, every query parameter declared with `explode: false` present in the
path's query string decodes to an array of strings — provided that, when
the first re-decode pass fires for it, the comma re-parse of the
delimiter-rewritten query string still yields a value for the parameter's
name (automatic for names free of delimiter characters; a name such as
`a|b` under `pipeDelimited` violates it and is left as a stored
`undefined`). -/
theorem claim4_unexploded_arrays (r : OpenAPIRouter) (req : Request) (op : Operation)
    (p : ParameterObject) (qs : List Char)
    (hq : queryIsObj req = false)
    (hqs : getQueryString req.path = some qs)
    (hp : p ∈ op.parameters) (hexp : p.explode = some false) (hin : p.paramIn = "query")
    (hpresent : (lookupQ (parseQueryList false qs) p.name).isSome = true)
    (hsurvive : ∀ p', findQueryParam op.parameters p.name = some p' →
      (p'.explode == some false) = true →
      (lookupQ (parseQueryList true (styleRewrite p'.style qs)) p.name).isSome = true) :
    ∃ a, lookupQ (parseRequest r req (some op)).query p.name = some (QVal.arr a) := by
  rw [parseRequest_query_str r req op qs hq hqs]
  obtain ⟨v0, hv0⟩ := Option.isSome_iff_exists.mp hpresent
  have hsa0 : strOrArr v0 := parseQueryList_lookup_ok hv0
  cases hie : qs.isEmpty
  · have hl1 : lookupQ (pass1 op qs (parseQueryList false qs)) p.name
        = some (pass1At op qs p.name v0) := by
      rw [pass1_lookup op qs _ p.name (parseQueryList_keysNodup false qs) hpresent, hv0,
        Option.map_some']
    have hsa1 : strOrArr (pass1At op qs p.name v0) := by
      cases ht : truthy v0
      · simp only [pass1At, ht, Bool.false_eq_true, if_false]
        exact hsa0
      · cases hf : findQueryParam op.parameters p.name
        · simp only [pass1At, ht, hf, if_true]
          exact hsa0
        · rename_i p'
          cases he : p'.explode == some false
          · simp only [pass1At, ht, hf, he, if_true, Bool.false_eq_true, if_false]
            exact hsa0
          · simp only [pass1At, ht, hf, he, if_true]
            obtain ⟨w, hw⟩ := Option.isSome_iff_exists.mp (hsurvive p' hf he)
            rw [hw, Option.getD_some]
            exact parseQueryList_lookup_ok hw
    exact pass2_lookup_arr op _ p.name _ ⟨p, hp, hexp, hin, rfl⟩ hl1 hsa1
  · exact pass2_lookup_arr op _ p.name v0 ⟨p, hp, hexp, hin, rfl⟩ hv0 hsa0

/-- Operation for the C4 witness: pipe-delimited non-exploded `a`. -/
def c4Op : Operation :=
  { path := "/x"
    method := "get"
    parameters := [{ name := "a", paramIn := "query", style := some "pipeDelimited",
                     explode := some false }] }

/-- Request for the C4 witness: raw query string `a=1|2|3`. -/
def c4Req : Request :=
  { method := "GET", path := "/x?a=1|2|3", query := some (QueryInput.str "a=1|2|3") }

/-- Witness for C4 (amended): `a=1|2|3` decodes to an array. -/
theorem claim4_unexploded_arrays_witness :
    ∃ a, lookupQ (parseRequest emptyRouter c4Req (some c4Op)).query "a" = some (QVal.arr a) := by
  apply claim4_unexploded_arrays emptyRouter c4Req c4Op
    { name := "a", paramIn := "query", style := some "pipeDelimited", explode := some false }
    ("a=1|2|3".data) (by decide) (by decide) (by decide) rfl rfl (by decide)
  intro p' hf he
  have hcomp : findQueryParam c4Op.parameters "a" =
      some { name := "a", paramIn := "query", style := some "pipeDelimited",
             explode := some false } := by decide
  rw [hcomp] at hf
  cases hf
  decide

/-- Operation for the C4 counterexample: the declared name `a|b` contains
the pipe delimiter. -/
def c4BadOp : Operation :=
  { path := "/x"
    method := "get"
    parameters := [{ name := "a|b", paramIn := "query", style := some "pipeDelimited",
                     explode := some false }] }

/-- Request for the C4 counterexample: the raw query string encodes the
pipe in the parameter name. -/
def c4BadReq : Request :=
  { method := "GET", path := "/x?a%7Cb=1", query := some (QueryInput.str "a%7Cb=1") }

/-- Counterexample for C4 as stated: the parameter `a|b` is declared with
`explode: false` and present in the query string, yet its final decoded
value is a stored `undefined` (the pipe rewrite mangles the key before the
comma re-parse), not an array of strings. -/
theorem claim4_counterexample :
    lookupQ (parseRequest emptyRouter c4BadReq (some c4BadOp)).query "a|b"
      = some QVal.undef ∧
    (∀ a : List String,
      ¬(lookupQ (parseRequest emptyRouter c4BadReq (some c4BadOp)).query "a|b"
        = some (QVal.arr a))) := by
  have h0 : lookupQ (parseRequest emptyRouter c4BadReq (some c4BadOp)).query "a|b"
      = some QVal.undef := by decide
  refine ⟨h0, ?_⟩
  intro a h
  rw [h0] at h
  exact QVal.noConfusion (Option.some.inj h)

/-! ## Claims C5 and C9: object-supplied queries and the pass-2 write -/

/-- The query produced by `parseRequest` when the raw query is a structured
object and an operation is given: the object itself, after pass 2 — pass 1
never applies. -/
theorem parseRequest_query_obj (r : OpenAPIRouter) (req : Request) (op : Operation)
    (m : QueryMap) (hv : req.query = some (QueryInput.obj m)) :
    (parseRequest r req (some op)).query = pass2 op m := by
  cases hqs : getQueryString req.path
  · simp only [parseRequest, hv, hqs, queryIsObj]
  · simp only [parseRequest, hv, hqs, queryIsObj, Bool.not_true, Bool.false_and,
      Bool.false_eq_true, if_false]

/-- Without an operation, the structured query is passed through. -/
theorem parseRequest_query_obj_noop (r : OpenAPIRouter) (req : Request)
    (m : QueryMap) (hv : req.query = some (QueryInput.obj m)) :
    (parseRequest r req none).query = m := by
  simp only [parseRequest, hv]

theorem pass2_fold_ne :
    ∀ (ps : List ParameterObject) (q : QueryMap) (k : String),
      (∀ p ∈ ps, ¬(k = p.name)) →
      lookupQ (ps.foldl pass2Step q) k = lookupQ q k
  | [], _, _, _ => rfl
  | p :: ps, q, k, h => by
    rw [List.foldl_cons]
    rw [pass2_fold_ne ps _ k (fun p' hp' => h p' (List.mem_cons_of_mem p hp'))]
    exact pass2Step_lookup_ne q p k (h p (List.mem_cons_self p ps))

/-- Pass 2 leaves every key untouched that is not the name of a declared
non-exploded query parameter. -/
theorem pass2_lookup_frame (op : Operation) (q : QueryMap) (k : String)
    (h : ∀ p ∈ op.parameters, p.explode = some false → p.paramIn = "query" → ¬(p.name = k)) :
    lookupQ (pass2 op q) k = lookupQ q k := by
  rw [pass2]
  apply pass2_fold_ne
  intro p hp
  rw [List.mem_filter, Bool.and_eq_true] at hp
  intro hk
  exact h p hp.1 (eq_of_beq hp.2.1) (eq_of_beq hp.2.2) hk.symm

theorem pass2_fold_id :
    ∀ (ps : List ParameterObject) (q : QueryMap),
      (∀ p ∈ ps, ∀ s, ¬(lookupQ q p.name = some (QVal.str s))) →
      ps.foldl pass2Step q = q
  | [], _, _ => rfl
  | p :: ps, q, h => by
    rw [List.foldl_cons]
    have hstep : pass2Step q p = q := by
      cases hl : lookupQ q p.name
      · simp only [pass2Step, hl]
      · rename_i v
        cases v with
        | str s => exact absurd hl (h p (List.mem_cons_self p ps) s)
        | arr a => simp only [pass2Step, hl]
        | undef => simp only [pass2Step, hl]
    rw [hstep]
    exact pass2_fold_id ps q (fun p' hp' => h p' (List.mem_cons_of_mem p hp'))

/-- Pass 2 is the identity when no declared non-exploded query parameter
holds a plain string. -/
theorem pass2_id (op : Operation) (q : QueryMap)
    (h : ∀ p ∈ op.parameters, p.explode = some false → p.paramIn = "query" →
      ∀ s, ¬(lookupQ q p.name = some (QVal.str s))) :
    pass2 op q = q := by
  rw [pass2]
  apply pass2_fold_id
  intro p hp
  rw [List.mem_filter, Bool.and_eq_true] at hp
  exact h p hp.1 (eq_of_beq hp.2.1) (eq_of_beq hp.2.2)

/-- C5 (amended): a structured (object) query is used as the base of the
result and the string re-decode pass (pass 1) never applies to it; but
pass 2 still does: the result's query is the supplied object with every
declared `explode: false` query parameter whose value is a plain string
split by its style delimiter.  It is verbatim at every other key, and
verbatim as a whole exactly when no such parameter holds a string (in
particular always when no operation is given). -/
theorem claim5_object_query (r : OpenAPIRouter) (req : Request) (op : Operation)
    (m : QueryMap) (hv : req.query = some (QueryInput.obj m)) :
    ((parseRequest r req none).query = m) ∧
    ((parseRequest r req (some op)).query = pass2 op m) ∧
    (∀ k, (∀ p ∈ op.parameters, p.explode = some false → p.paramIn = "query" →
        ¬(p.name = k)) →
      lookupQ (parseRequest r req (some op)).query k = lookupQ m k) ∧
    ((∀ p ∈ op.parameters, p.explode = some false → p.paramIn = "query" →
        ∀ s, ¬(lookupQ m p.name = some (QVal.str s))) →
      (parseRequest r req (some op)).query = m) := by
  refine ⟨parseRequest_query_obj_noop r req m hv, parseRequest_query_obj r req op m hv,
    ?_, ?_⟩
  · intro k hk
    rw [parseRequest_query_obj r req op m hv]
    exact pass2_lookup_frame op m k hk
  · intro h
    rw [parseRequest_query_obj r req op m hv]
    exact pass2_id op m h

/-- Operation for the C5 counterexample and witness. -/
def c5Op : Operation :=
  { path := "/x"
    method := "get"
    parameters := [{ name := "a", paramIn := "query", style := some "pipeDelimited",
                     explode := some false }] }

/-- Request with a structured query for the C5 counterexample. -/
def c5Req : Request :=
  { method := "GET", path := "/x", query := some (QueryInput.obj [("a", QVal.str "1|2")]) }

/-- Counterexample for C5 as stated: with a structured query, the result is
not the object verbatim — pass 2 still applies and splits the declared
non-exploded parameter. -/
theorem claim5_counterexample :
    (parseRequest emptyRouter c5Req (some c5Op)).query = [("a", QVal.arr ["1", "2"])] ∧
    ¬((parseRequest emptyRouter c5Req (some c5Op)).query = [("a", QVal.str "1|2")]) := by
  exact ⟨by decide, by decide⟩

/-- Request with a structured query none of whose values is a string. -/
def c5wReq : Request :=
  { method := "GET", path := "/x",
    query := some (QueryInput.obj [("a", QVal.arr ["1", "2"])]) }

/-- Witness for C5 (amended): with no string-valued declared parameter the
object is returned verbatim, and without an operation it always is. -/
theorem claim5_object_query_witness :
    (parseRequest emptyRouter c5wReq none).query = [("a", QVal.arr ["1", "2"])] ∧
    (parseRequest emptyRouter c5wReq (some c5Op)).query = [("a", QVal.arr ["1", "2"])] := by
  have h := claim5_object_query emptyRouter c5wReq c5Op [("a", QVal.arr ["1", "2"])] rfl
  refine ⟨h.1, h.2.2.2 ?_⟩
  intro p hp hexp hin s hs
  rcases List.mem_cons.mp hp with rfl | hnil
  · have hv2 : lookupQ [("a", QVal.arr ["1", "2"])] "a" = some (QVal.arr ["1", "2"]) := by
      decide
    exact QVal.noConfusion (Option.some.inj (hv2.symm.trans hs))
  · exact absurd hnil (List.not_mem_nil p)

/-- C9 (amended): no router operation writes to the router instance or the
contract document (every operation here is a function of them), and
`parseRequest` leaves the caller-supplied query object untouched whenever
the raw query is not an object or no operation is given; but when a
structured query and an operation are both supplied, pass 2 writes into the
caller's aliased query object — the caller observes the pass-2 result,
unchanged only at keys that are not declared non-exploded query
parameters. -/
theorem claim9_mutation_frame (req : Request) (op? : Option Operation) :
    (queryIsObj req = false → callerQueryAfter req op? = req.query) ∧
    (op? = none → callerQueryAfter req op? = req.query) ∧
    (∀ m op, req.query = some (QueryInput.obj m) → op? = some op →
      callerQueryAfter req op? = some (QueryInput.obj (pass2 op m))) ∧
    (∀ m op k, req.query = some (QueryInput.obj m) → op? = some op →
      (∀ p ∈ op.parameters, p.explode = some false → p.paramIn = "query" →
        ¬(p.name = k)) →
      ∃ m', callerQueryAfter req op? = some (QueryInput.obj m') ∧
        lookupQ m' k = lookupQ m k) := by
  refine ⟨?_, ?_, ?_, ?_⟩
  · intro hq
    cases hv : req.query with
    | none => simp only [callerQueryAfter, hv]
    | some qi =>
      cases qi with
      | obj m =>
        rw [queryIsObj, hv] at hq
        exact Bool.noConfusion hq
      | str s =>
        cases op? <;> simp only [callerQueryAfter, hv]
  · intro h
    subst h
    cases hv : req.query with
    | none => simp only [callerQueryAfter, hv]
    | some qi => cases qi <;> simp only [callerQueryAfter, hv]
  · intro m op hm hop
    subst hop
    simp only [callerQueryAfter, hm]
  · intro m op k hm hop hk
    subst hop
    simp only [callerQueryAfter, hm]
    exact ⟨pass2 op m, rfl, pass2_lookup_frame op m k hk⟩

/-- Operation for the C9 counterexample. -/
def c9Op : Operation :=
  { path := "/x"
    method := "get"
    parameters := [{ name := "a", paramIn := "query", style := some "pipeDelimited",
                     explode := some false }] }

/-- Request carrying a caller-owned structured query object. -/
def c9Req : Request :=
  { method := "GET", path := "/x", query := some (QueryInput.obj [("a", QVal.str "1|2")]) }

/-- Counterexample for C9 as stated: `parseRequest` is not free of caller-
visible mutation — after the call, the caller's query object no longer
holds its original value. -/
theorem claim9_counterexample :
    callerQueryAfter c9Req (some c9Op)
      = some (QueryInput.obj [("a", QVal.arr ["1", "2"])]) ∧
    ¬(callerQueryAfter c9Req (some c9Op) = c9Req.query) := by
  exact ⟨by decide, by decide⟩

/-- Request for the C9 witness (string query: never mutated). -/
def c9wReq : Request :=
  { method := "GET", path := "/x?a=1|2", query := some (QueryInput.str "a=1|2") }

/-- Witness for C9 (amended): with a string query the caller's value is
untouched even with an operation given. -/
theorem claim9_mutation_frame_witness :
    callerQueryAfter c9wReq (some c9Op) = c9wReq.query :=
  (claim9_mutation_frame c9wReq (some c9Op)).1 (by decide)
